import Mathlib

/-!
Verification development for the streaming FIT decoder in
`fitparse/base.py` (helper functions and class `FitFile`).

The Python source is shallowly embedded: bytes are naturals below 256,
machine integers are `Nat`/`Int` with explicit truncation, fallible code
returns `Except Err`, and the parser's mutable attributes become an
explicit state record threaded through the step functions.  Pieces of the
repository that are imported by `base.py` but whose source files are not
part of the given tree (`fitparse/records.py`, `fitparse/profile.py`,
`fitparse/utils.py`, `fitparse/processors.py`) are modelled from the
specification; each such definition carries a doc comment starting with
`Modelled from the spec:`.
-/

namespace Fitparse

/-- Scalar Python values occurring in the decoder: `None`, ints, floats
produced by scale/offset (represented exactly, as rationals), strings. -/
inductive SVal where
  | none
  | num (i : Int)
  | rat (q : ℚ)
  | str (s : String)
deriving Repr, DecidableEq, Inhabited

/-- Values flowing through the decoder: a scalar or a flat tuple of
scalars.  In `base.py` tuples never nest: raw extraction produces flat
tuples of parsed scalars and `_apply_scale_offset` maps tuple elements
(which are scalars) to scalars. -/
inductive RVal where
  | scalar (v : SVal)
  | tup (vs : List SVal)
deriving Repr, DecidableEq, Inhabited

/-- Python's `raw_value is None` test. -/
def RVal.isNone : RVal → Bool
  | .scalar .none => true
  | _ => false

/-- Python's `isinstance(raw_value, tuple)` test. -/
def RVal.isTuple : RVal → Bool
  | .tup _ => true
  | _ => false

/-- Modelled from the spec: a base type of the FIT profile
(`fitparse/records.py` is not in the source tree).  Per §3 of the spec a
base type carries an identifier, name, wire size and an "invalid"
sentinel; per §4.5 its parser "maps the invalid sentinel to `none`, else
identity".  Signed types decode as two's complement; float values are
kept as their raw bit patterns. -/
structure BaseType where
  name : String
  identifier : Nat
  size : Nat
  signed : Bool
  invalid : Int
deriving Repr, DecidableEq, Inhabited

/-- Modelled from the spec: scalar parse function of a base type — the
invalid sentinel becomes `none`, everything else is kept. -/
def BaseType.parse (bt : BaseType) (v : Int) : SVal :=
  if v = bt.invalid then .none else .num v

/-- Modelled from the spec: scalar unparse function of a base type, the
inverse of `BaseType.parse` (`none` becomes the invalid sentinel). -/
def BaseType.unparse (bt : BaseType) : SVal → SVal
  | .none => .num bt.invalid
  | v => v

/-- Modelled from the spec §6: the static base-type registry
`BASE_TYPES`, keyed by identifier, with the FIT-standard entries. -/
def BASE_TYPES : Nat → Option BaseType
  | 0x00 => some ⟨"enum", 0x00, 1, false, 0xFF⟩
  | 0x01 => some ⟨"sint8", 0x01, 1, true, 0x7F⟩
  | 0x02 => some ⟨"uint8", 0x02, 1, false, 0xFF⟩
  | 0x07 => some ⟨"string", 0x07, 1, false, 0x00⟩
  | 0x0A => some ⟨"uint8z", 0x0A, 1, false, 0x00⟩
  | 0x0D => some ⟨"byte", 0x0D, 1, false, 0xFF⟩
  | 0x83 => some ⟨"sint16", 0x83, 2, true, 0x7FFF⟩
  | 0x84 => some ⟨"uint16", 0x84, 2, false, 0xFFFF⟩
  | 0x85 => some ⟨"sint32", 0x85, 4, true, 0x7FFFFFFF⟩
  | 0x86 => some ⟨"uint32", 0x86, 4, false, 0xFFFFFFFF⟩
  | 0x88 => some ⟨"float32", 0x88, 4, false, 0xFFFFFFFF⟩
  | 0x89 => some ⟨"float64", 0x89, 8, false, 0xFFFFFFFFFFFFFFFF⟩
  | 0x8B => some ⟨"uint16z", 0x8B, 2, false, 0x00⟩
  | 0x8C => some ⟨"uint32z", 0x8C, 4, false, 0x00⟩
  | 0x8E => some ⟨"sint64", 0x8E, 8, true, 0x7FFFFFFFFFFFFFFF⟩
  | 0x8F => some ⟨"uint64", 0x8F, 8, false, 0xFFFFFFFFFFFFFFFF⟩
  | 0x90 => some ⟨"uint64z", 0x90, 8, false, 0x00⟩
  | _ => Option.none

/-- Modelled from the spec: `BASE_TYPE_BYTE`, the fallback base type for
unknown identifiers. -/
def BASE_TYPE_BYTE : BaseType := ⟨"byte", 0x0D, 1, false, 0xFF⟩

/-- Modelled from the spec §3: a sub-field reference constraint
`(ref_def_num, ref_raw_value)` (`fitparse/records.py`). -/
structure RefField where
  def_num : Nat
  raw_value : RVal
deriving Repr, DecidableEq

/-- Modelled from the spec §3: a component of a field — a bit slice of
the parent field's raw integer with its own scale/offset, target field
definition number and accumulate flag (`fitparse/records.py`).  A scale
or offset of `0` plays the role of Python's falsy absent value. -/
structure Component where
  def_num : Nat
  scale : ℚ
  offset : ℚ
  accumulate : Bool
  bits : Nat
  bit_offset : Nat
deriving Repr, DecidableEq

/-- Modelled from the spec §3: the properties shared by a static field
descriptor and a sub-field: name, definition number, scale, offset,
components, and (for sub-fields) reference-field constraints
(`fitparse/records.py`). -/
structure FProps where
  name : String
  def_num : Nat
  scale : ℚ
  offset : ℚ
  components : List Component
  ref_fields : List RefField
deriving Repr, DecidableEq

/-- Modelled from the spec §3: a static field descriptor — its own
properties plus its sub-fields (`fitparse/records.py`). -/
structure Field where
  props : FProps
  subfields : List FProps
deriving Repr, DecidableEq

/-- Modelled from the spec §6: a profile message type: name plus a
def_num-indexed field table (`fitparse/profile.py`). -/
structure MessageType where
  name : String
  fields : List (Nat × Field)
deriving Repr, DecidableEq

/-- Lookup in the def_num-indexed field table (`mesg_type.fields.get`). -/
def MessageType.getField (mt : MessageType) (def_num : Nat) : Option Field :=
  (mt.fields.find? (fun p => p.1 == def_num)).map Prod.snd

/-- Modelled from the spec §6: the singleton timestamp field
`FIELD_TYPE_TIMESTAMP` of `fitparse/profile.py` with its known def_num
(253 in the FIT profile). -/
def FIELD_TYPE_TIMESTAMP : Field :=
  ⟨⟨"timestamp", 253, 0, 0, [], []⟩, []⟩

/-- `FieldDefinition` from `fitparse/records.py` as used by `base.py`:
`(field, def_num, base_type, size)`. -/
structure FieldDefinition where
  field : Option Field
  def_num : Nat
  base_type : BaseType
  size : Nat
deriving Repr, DecidableEq

/-- Modelled from the spec §3: a developer field schema from the
developer-field registry (`fitparse/records.py`). -/
structure DevField where
  dev_data_index : Nat
  def_num : Nat
  base_type : BaseType
  name : String
deriving Repr, DecidableEq

/-- `DevFieldDefinition` from `fitparse/records.py` as used by
`base.py`; `field` is `Option.none` when the registry lookup
`get_dev_type` found nothing (the spec allows this at definition time;
it fails the later decode). -/
structure DevFieldDefinition where
  field : Option DevField
  dev_data_index : Nat
  def_num : Nat
  size : Nat
deriving Repr, DecidableEq

/-- An entry of a definition message's field list: either a normal
`FieldDefinition` or a `DevFieldDefinition`.  The `dev` tag plays the
role of Python's `hasattr(fdef, 'dev_data_index')`. -/
inductive FieldDefEntry where
  | norm (fd : FieldDefinition)
  | dev (dd : DevFieldDefinition)
deriving Repr, DecidableEq

def FieldDefEntry.def_num : FieldDefEntry → Nat
  | .norm fd => fd.def_num
  | .dev dd => dd.def_num

def FieldDefEntry.isDev : FieldDefEntry → Bool
  | .norm _ => false
  | .dev _ => true

def FieldDefEntry.size : FieldDefEntry → Nat
  | .norm fd => fd.size
  | .dev dd => dd.size

/-- Byte order declared by a definition message: `'<'` or `'>'` in the
source. -/
inductive Endian where
  | little
  | big
deriving Repr, DecidableEq, Inhabited

/-- `MessageHeader` from `fitparse/records.py` as constructed by
`FitFile._parse_message_header`: a compressed-timestamp header stores
`some time_offset`, a normal header stores `Option.none` there. -/
structure MessageHeader where
  is_definition : Bool
  is_developer_data : Bool
  local_mesg_num : Nat
  time_offset : Option Nat
deriving Repr, DecidableEq

/-- `DefinitionMessage` from `fitparse/records.py` as constructed by
`FitFile._parse_definition_message`. -/
structure DefinitionMessage where
  header : MessageHeader
  endian : Endian
  mesg_type : Option MessageType
  mesg_num : Nat
  field_defs : List FieldDefinition
  dev_field_defs : List DevFieldDefinition
deriving Repr, DecidableEq

/-- `FieldData` from `fitparse/records.py` as constructed by
`FitFile._parse_data_message`: the defining entry (if any), the resolved
field properties (if any), the parent field for resolved sub-fields, and
the rendered/raw values. -/
structure FieldData where
  field_def : Option FieldDefEntry
  field : Option FProps
  parent_field : Option Field
  value : RVal
  raw_value : RVal
deriving Repr, DecidableEq

/-- `DataMessage` from `fitparse/records.py`; its `mesg_num` is the
definition message's global message number. -/
structure DataMessage where
  header : MessageHeader
  def_mesg : DefinitionMessage
  fields : List FieldData
deriving Repr, DecidableEq

def DataMessage.mesg_num (m : DataMessage) : Nat := m.def_mesg.mesg_num

/-- A parsed message: `msg.type` is `'definition'` or `'data'` in the
source. -/
inductive Message where
  | defn (m : DefinitionMessage)
  | data (m : DataMessage)
deriving Repr, DecidableEq

/-- `FitFile._apply_compressed_accumulation` from `fitparse/base.py`.
Python's `accumulation & ~max_mask` on its unbounded (possibly negative)
ints equals `accumulation - accumulation % max_value` with Euclidean `%`,
which is exactly Lean's `Int` `%`; both branches are otherwise literal. -/
def apply_compressed_accumulation (raw_value accumulation : Int) (num_bits : Nat) : Int :=
  let max_value : Int := ((1 <<< num_bits : Nat) : Int)
  let base_value : Int := raw_value + (accumulation - accumulation % max_value)
  if raw_value < (accumulation % max_value) then base_value + max_value else base_value

theorem apply_compressed_accumulation_eq (raw acc : Int) (bits : Nat) :
    apply_compressed_accumulation raw acc bits =
      raw + (acc - acc % (2 ^ bits)) +
        (if raw < acc % (2 ^ bits) then 2 ^ bits else 0) := by
  have h : ((1 <<< bits : Nat) : Int) = 2 ^ bits := by
    simp [Nat.shiftLeft_eq]
  simp only [apply_compressed_accumulation, h]
  split <;> ring

/-- `FitFile._resolve_subfield` from `fitparse/base.py`: scan
`field.subfields` in order and return the first sub-field one of whose
`ref_fields` has a def_num and raw-value match among the zipped
field-definition/raw-value pairs of the record; otherwise return the
field itself with no parent. -/
def subfield_matches (sf : FProps) (pairs : List (FieldDefinition × RVal)) : Bool :=
  sf.ref_fields.any fun ref =>
    pairs.any fun p => p.1.def_num == ref.def_num && ref.raw_value == p.2

def resolve_subfield (field : Field) (field_defs : List FieldDefinition)
    (raw_values : List RVal) : FProps × Option Field :=
  match field.subfields.find? (fun sf => subfield_matches sf (field_defs.zip raw_values)) with
  | some sf => (sf, some field)
  | Option.none => (field.props, Option.none)

/-! Arithmetic helpers for the bit-accumulator law. -/

theorem testBit_add_two_pow_mul {raw b : Nat} (q i : Nat) (h : raw < 2 ^ b) :
    Nat.testBit (raw + 2 ^ b * q) i = (Nat.testBit raw i || Nat.testBit (2 ^ b * q) i) := by
  rcases Nat.lt_or_ge i b with hib | hib
  · have hsplit : 2 ^ b * q = (2 ^ (b - i) * q) * 2 ^ i := by
      have hbi : b - i + i = b := by omega
      have hp : (2 : Nat) ^ b = 2 ^ (b - i) * 2 ^ i := by rw [← Nat.pow_add, hbi]
      rw [hp, Nat.mul_right_comm]
    have h2 : 2 ^ (b - i) * q % 2 = 0 := by
      have hbi : b - i = (b - i - 1) + 1 := by omega
      rw [hbi, pow_succ', Nat.mul_assoc]
      exact Nat.mul_mod_right 2 _
    rw [Nat.testBit_to_div_mod, Nat.testBit_to_div_mod, Nat.testBit_to_div_mod, hsplit,
      Nat.add_mul_div_right _ _ (Nat.two_pow_pos i), Nat.mul_div_cancel _ (Nat.two_pow_pos i)]
    have h3 : (raw / 2 ^ i + 2 ^ (b - i) * q) % 2 = raw / 2 ^ i % 2 := by omega
    rw [h3, h2]
    simp
  · have hr : Nat.testBit raw i = false :=
      Nat.testBit_lt_two_pow (Nat.lt_of_lt_of_le h (Nat.pow_le_pow_right (by omega) hib))
    have hpow : (2 : Nat) ^ i = 2 ^ b * 2 ^ (i - b) := by
      rw [← Nat.pow_add]
      have hbi : b + (i - b) = i := by omega
      rw [hbi]
    have hdiv : (raw + 2 ^ b * q) / 2 ^ i = (2 ^ b * q) / 2 ^ i := by
      rw [hpow, ← Nat.div_div_eq_div_mul, ← Nat.div_div_eq_div_mul]
      congr 1
      rw [Nat.mul_comm, Nat.add_mul_div_right _ _ (Nat.two_pow_pos b),
        Nat.mul_div_cancel _ (Nat.two_pow_pos b), Nat.div_eq_of_lt h]
      omega
    rw [hr, Bool.false_or, Nat.testBit_to_div_mod, Nat.testBit_to_div_mod, hdiv]

theorem lor_of_lt_two_pow {raw b : Nat} (q : Nat) (h : raw < 2 ^ b) :
    raw ||| 2 ^ b * q = raw + 2 ^ b * q := by
  apply Nat.eq_of_testBit_eq
  intro i
  rw [Nat.testBit_lor, testBit_add_two_pow_mul q i h]

/-- C4: bit accumulator law.  For non-negative `raw`, `stored` and
`bits > 0` with `raw < 2^bits`, `_apply_compressed_accumulation` equals
`raw ||| (stored` with its low `bits` bits cleared`)` (the source's
`stored & ~(2^bits-1)`, written `stored >>> bits <<< bits` on `Nat`),
plus an additional `2^bits` exactly when `raw < (stored & (2^bits-1))`;
the result is congruent to `raw` mod `2^bits`; and whenever
`raw < (stored & (2^bits-1))` the result is at least `stored + 1`. -/
theorem accumulate_bits_law (raw stored bits : Nat) (_hb : 0 < bits) (hr : raw < 2 ^ bits) :
    apply_compressed_accumulation raw stored bits =
      ((raw ||| (stored >>> bits <<< bits) : Nat) : Int) +
        (if raw < stored &&& (2 ^ bits - 1) then ((2 : Int) ^ bits) else 0) ∧
    apply_compressed_accumulation raw stored bits % 2 ^ bits = (raw : Int) % 2 ^ bits ∧
    (raw < stored &&& (2 ^ bits - 1) →
      (stored : Int) + 1 ≤ apply_compressed_accumulation raw stored bits) := by
  have hand : stored &&& (2 ^ bits - 1) = stored % 2 ^ bits := by
    simp [Nat.and_pow_two_sub_one_eq_mod]
  have hdm : 2 ^ bits * (stored / 2 ^ bits) + stored % 2 ^ bits = stored :=
    Nat.div_add_mod stored (2 ^ bits)
  have hclear : stored >>> bits <<< bits = 2 ^ bits * (stored / 2 ^ bits) := by
    rw [Nat.shiftRight_eq_div_pow, Nat.shiftLeft_eq, Nat.mul_comm]
  have hkey : (raw ||| (stored >>> bits <<< bits) : Nat) = raw + (stored - stored % 2 ^ bits) := by
    rw [hclear, lor_of_lt_two_pow _ hr]
    omega
  have hcastmod : ((stored : Int)) % ((2 : Int) ^ bits) = ((stored % 2 ^ bits : Nat) : Int) := by
    push_cast
    ring
  have hcond : (((raw : Int)) < ((stored : Int)) % ((2 : Int) ^ bits)) ↔ raw < stored % 2 ^ bits := by
    rw [hcastmod]
    exact_mod_cast Iff.rfl
  have hA := apply_compressed_accumulation_eq (raw : Int) (stored : Int) bits
  refine ⟨?_, ?_, ?_⟩
  · rw [hA, hkey, hand]
    by_cases hc : raw < stored % 2 ^ bits
    · rw [if_pos hc, if_pos (hcond.mpr hc), hcastmod]
      push_cast
      omega
    · rw [if_neg hc, if_neg (fun h => hc (hcond.mp h)), hcastmod]
      push_cast
      omega
  · rw [hA]
    have hsub : (stored : Int) - (stored : Int) % ((2 : Int) ^ bits) =
        ((2 : Int) ^ bits) * ((stored : Int) / ((2 : Int) ^ bits)) := by
      rw [Int.emod_def]
      ring
    rw [hsub]
    by_cases hc : ((raw : Int)) < ((stored : Int)) % ((2 : Int) ^ bits)
    · rw [if_pos hc]
      have : (raw : Int) + (2 : Int) ^ bits * ((stored : Int) / ((2 : Int) ^ bits)) + (2 : Int) ^ bits =
          (raw : Int) + (2 : Int) ^ bits * (((stored : Int) / ((2 : Int) ^ bits)) + 1) := by ring
      rw [this, Int.add_mul_emod_self_left]
    · rw [if_neg hc, add_zero, Int.add_mul_emod_self_left]
  · intro hlt
    rw [hA, if_pos (hcond.mpr (by omega : raw < stored % 2 ^ bits))]
    have hmod_lt : ((stored : Int)) % ((2 : Int) ^ bits) < ((2 : Int) ^ bits) :=
      Int.emod_lt_of_pos _ (by positivity)
    have hmod_nonneg : 0 ≤ ((stored : Int)) % ((2 : Int) ^ bits) :=
      Int.emod_nonneg _ (by positivity)
    have hraw_nonneg : (0 : Int) ≤ (raw : Int) := Int.ofNat_nonneg raw
    omega

/-- Witness for `accumulate_bits_law` at `raw = 3`, `stored = 37`,
`bits = 3`. -/
theorem accumulate_bits_law_witness :
    (0 : Nat) < 3 ∧ (3 : Nat) < 2 ^ 3 ∧
    (apply_compressed_accumulation 3 37 3 =
      ((3 ||| (37 >>> 3 <<< 3) : Nat) : Int) +
        (if (3 : Nat) < 37 &&& (2 ^ 3 - 1) then ((2 : Int) ^ 3) else 0) ∧
    apply_compressed_accumulation 3 37 3 % 2 ^ 3 = ((3 : Nat) : Int) % 2 ^ 3 ∧
    ((3 : Nat) < 37 &&& (2 ^ 3 - 1) →
      ((37 : Nat) : Int) + 1 ≤ apply_compressed_accumulation 3 37 3)) :=
  ⟨by decide, by decide, accumulate_bits_law 3 37 3 (by decide) (by decide)⟩

/-! Claim C1: sub-field selection. -/

theorem find?_pointwise {α : Type} (p q : α → Bool) (h : ∀ a, p a = q a) :
    ∀ l : List α, l.find? p = l.find? q := by
  intro l
  induction l with
  | nil => rfl
  | cons a t ih =>
    by_cases hq : q a = true
    · simp [List.find?_cons, h a, hq]
    · simp only [Bool.not_eq_true] at hq
      simp [List.find?_cons, h a, hq, ih]

/-- Concrete data refuting the all-must-match reading of
`_resolve_subfield`: one sub-field with two reference constraints, only
the first of which matches the record. -/
def exSub : FProps := ⟨"sub", 10, 0, 0, [], [⟨0, .scalar (.num 4)⟩, ⟨1, .scalar (.num 7)⟩]⟩

def exField : Field := ⟨⟨"parent", 10, 0, 0, [], []⟩, [exSub]⟩

def exDefs : List FieldDefinition :=
  [⟨Option.none, 0, BASE_TYPE_BYTE, 1⟩, ⟨Option.none, 1, BASE_TYPE_BYTE, 1⟩]

def exRaws : List RVal := [.scalar (.num 4), .scalar (.num 5)]

/-- C1, counterexample: `_resolve_subfield` selects `exSub` (returning it
with the original field as parent) although the constraint
`(ref_def_num = 1, ref_raw_value = 7)` of `exSub` is matched by no
field-definition/raw-value pair of the record — selection is not
all-must-match. -/
theorem resolve_subfield_not_all_match :
    resolve_subfield exField exDefs exRaws = (exSub, some exField) ∧
    ¬ (∀ ref ∈ exSub.ref_fields, ∃ p ∈ exDefs.zip exRaws,
        p.1.def_num = ref.def_num ∧ ref.raw_value = p.2) := by
  constructor
  · rfl
  · intro h
    have h2 := h ⟨1, .scalar (.num 7)⟩ (by decide)
    revert h2
    decide

/-- C1, amended: sub-field selection is first-any-match.  Scanning
`field.subfields` in order, `_resolve_subfield` selects the first
sub-field having at least one `ref_fields` constraint whose
`(ref_def_num, ref_raw_value)` is matched by some zipped
field-definition/raw-value pair of the record, returning it with the
original field as `parent_field`; if no sub-field has any matching
constraint (in particular if `subfields` is empty), the original field
is returned with `parent_field = None`. -/
theorem resolve_subfield_first_any_match (field : Field) (defs : List FieldDefinition)
    (raws : List RVal) :
    resolve_subfield field defs raws =
      match field.subfields.find? (fun sf =>
        decide (∃ ref ∈ sf.ref_fields, ∃ p ∈ defs.zip raws,
          p.1.def_num = ref.def_num ∧ ref.raw_value = p.2)) with
      | some sf => (sf, some field)
      | Option.none => (field.props, Option.none) := by
  unfold resolve_subfield
  have hpt : ∀ sf : FProps, subfield_matches sf (defs.zip raws) =
      decide (∃ ref ∈ sf.ref_fields, ∃ p ∈ defs.zip raws,
        p.1.def_num = ref.def_num ∧ ref.raw_value = p.2) := by
    intro sf
    rw [Bool.eq_iff_iff]
    simp [subfield_matches, List.any_eq_true]
  rw [find?_pointwise _ _ hpt]

/-! Claim C2: `adjust_message` and the developer-to-native field copy. -/

/-- Predicate used by `get_field` (lines 26-32 of `base.py`): the entry
has a `field_def`, its dev-ness (`hasattr(fdef, 'dev_data_index')`)
equals `is_dev`, and its `def_num` is among `def_nums`. -/
def field_data_matches (is_dev : Bool) (def_nums : List Nat) (fd : FieldData) : Bool :=
  match fd.field_def with
  | some fdef => fdef.isDev == is_dev && def_nums.contains fdef.def_num
  | Option.none => false

/-- `get_field` from `fitparse/base.py`: first field-data entry of the
message matching dev-ness and one of the definition numbers.  The
source's single-int argument is normalised to a list, as its first two
lines do. -/
def get_field (message : DataMessage) (is_dev : Bool) (def_nums : List Nat) :
    Option FieldData :=
  message.fields.find? (field_data_matches is_dev def_nums)

/-- Replace the element at an index (identity when out of range); this
renders the in-place mutation of the `FieldData` object that `get_field`
returned. -/
def updateAt {α : Type} : List α → Nat → (α → α) → List α
  | [], _, _ => []
  | a :: t, 0, f => f a :: t
  | a :: t, n + 1, f => a :: updateAt t n f

/-- `copy_field` applied through `copy_dev_to_native` from
`fitparse/base.py`.  `fitparse/records.py` is not in the source tree, so
`FieldData.decode_raw_value` is an abstract parameter `g` and
`set_value` stores its result as the raw value; `dest.value = src.value`
is literal.  When either field is absent (`src is None or dest is
None`) nothing changes. -/
def copy_dev_to_native (g : FieldData → RVal) (message : DataMessage)
    (dev_ids : List Nat) (n_id : Nat) : DataMessage :=
  match get_field message true dev_ids with
  | Option.none => message
  | some src =>
    match message.fields.findIdx? (field_data_matches false [n_id]) with
    | Option.none => message
    | some i =>
      { message with
        fields := updateAt message.fields i
          (fun d => { d with raw_value := g src, value := src.value }) }

/-- `adjust_message` from `fitparse/base.py`: for data messages of
global numbers 20 (record), 19 (lap) and 18 (session), copy specific
developer fields over native fields. -/
def adjust_message (g : FieldData → RVal) : Message → Message
  | .defn m => .defn m
  | .data m =>
    let m1 := if m.mesg_num = 20 then copy_dev_to_native g m [0, 23] 5 else m
    let m2 := if m1.mesg_num = 19 then copy_dev_to_native g m1 [4] 9 else m1
    let m3 := if m2.mesg_num = 18 then
        copy_dev_to_native g (copy_dev_to_native g m2 [7, 25] 9) [21] 14
      else m2
    .data m3

theorem copy_dev_to_native_mesg_num (g : FieldData → RVal) (m : DataMessage)
    (ids : List Nat) (n : Nat) :
    (copy_dev_to_native g m ids n).mesg_num = m.mesg_num := by
  unfold copy_dev_to_native
  cases get_field m true ids with
  | none => rfl
  | some src =>
    cases m.fields.findIdx? (field_data_matches false [n]) with
    | none => rfl
    | some i => rfl

/-- C2: the parser's `adjust_message` overwrites, in data messages of
global number 20 (resp. 19, 18), the raw and rendered values of native
field 5 (resp. 9; 9 and 14) with values recomputed (via the abstract
`decode_raw_value`, written `g`) from the first developer field of
def_num 0 or 23 (resp. 4; 7 or 25, and 21); messages of other global
numbers, definition messages, and messages lacking either the developer
or the native field are left unchanged. -/
theorem adjust_message_spec (g : FieldData → RVal) (msg : DataMessage) :
    (∀ dm : DefinitionMessage, adjust_message g (.defn dm) = .defn dm) ∧
    (msg.mesg_num ≠ 18 → msg.mesg_num ≠ 19 → msg.mesg_num ≠ 20 →
      adjust_message g (.data msg) = .data msg) ∧
    (msg.mesg_num = 20 →
      adjust_message g (.data msg) = .data (copy_dev_to_native g msg [0, 23] 5)) ∧
    (msg.mesg_num = 19 →
      adjust_message g (.data msg) = .data (copy_dev_to_native g msg [4] 9)) ∧
    (msg.mesg_num = 18 →
      adjust_message g (.data msg) =
        .data (copy_dev_to_native g (copy_dev_to_native g msg [7, 25] 9) [21] 14)) ∧
    (∀ ids n, get_field msg true ids = Option.none →
      copy_dev_to_native g msg ids n = msg) ∧
    (∀ ids n, get_field msg false [n] = Option.none →
      copy_dev_to_native g msg ids n = msg) ∧
    (∀ ids n src i, get_field msg true ids = some src →
      msg.fields.findIdx? (field_data_matches false [n]) = some i →
      copy_dev_to_native g msg ids n =
        { msg with
          fields := updateAt msg.fields i
            (fun d => { d with raw_value := g src, value := src.value }) }) := by
  refine ⟨fun dm => rfl, ?_, ?_, ?_, ?_, ?_, ?_, ?_⟩
  · intro h18 h19 h20
    simp only [adjust_message, if_neg h20, if_neg h19, if_neg h18]
  · intro h20
    have h19 : (copy_dev_to_native g msg [0, 23] 5).mesg_num ≠ 19 := by
      rw [copy_dev_to_native_mesg_num, h20]
      decide
    have h18 : (copy_dev_to_native g msg [0, 23] 5).mesg_num ≠ 18 := by
      rw [copy_dev_to_native_mesg_num, h20]
      decide
    simp only [adjust_message, if_pos h20, if_neg h19, if_neg h18]
  · intro h19
    have h20 : msg.mesg_num ≠ 20 := by omega
    have h18 : (copy_dev_to_native g msg [4] 9).mesg_num ≠ 18 := by
      rw [copy_dev_to_native_mesg_num, h19]
      decide
    simp only [adjust_message, if_neg h20, if_pos h19, if_neg h18]
  · intro h18
    have h20 : msg.mesg_num ≠ 20 := by omega
    have h19 : msg.mesg_num ≠ 19 := by omega
    simp only [adjust_message, if_neg h20, if_neg h19, if_pos h18]
  · intro ids n hsrc
    unfold copy_dev_to_native
    rw [hsrc]
  · intro ids n hdest
    unfold copy_dev_to_native
    cases hs : get_field msg true ids with
    | none => rfl
    | some src =>
      have : msg.fields.findIdx? (field_data_matches false [n]) = Option.none := by
        unfold get_field at hdest
        rw [List.findIdx?_eq_none_iff]
        intro x hx
        have := List.find?_eq_none.mp hdest x hx
        simpa using this
      rw [this]
  · intro ids n src i hsrc hidx
    unfold copy_dev_to_native
    rw [hsrc, hidx]

/-- Concrete record (global 20) message with a developer field of
def_num 0 and a native field of def_num 5, for the C2 witness. -/
def exDevEntry : FieldDefEntry :=
  .dev ⟨Option.none, 1, 0, 2⟩

def exNatEntry : FieldDefEntry :=
  .norm ⟨Option.none, 5, BASE_TYPE_BYTE, 1⟩

def exDefMesg20 : DefinitionMessage :=
  ⟨⟨false, true, 0, Option.none⟩, .little, Option.none, 20,
    [⟨Option.none, 5, BASE_TYPE_BYTE, 1⟩], [⟨Option.none, 1, 0, 2⟩]⟩

def exMsg20 : DataMessage :=
  ⟨⟨false, false, 0, Option.none⟩, exDefMesg20,
    [⟨some exNatEntry, Option.none, Option.none, .scalar (.num 7), .scalar (.num 7)⟩,
     ⟨some exDevEntry, Option.none, Option.none, .scalar (.num 42), .scalar (.num 41)⟩]⟩

/-- Witness for `adjust_message_spec`: on `exMsg20` (global 20, developer
field def_num 0 present, native field def_num 5 present) the native
entry's raw value becomes `g src` and its rendered value becomes the
developer entry's value. -/
theorem adjust_message_spec_witness :
    adjust_message (fun _ => RVal.scalar (.num 99)) (.data exMsg20) =
      .data { exMsg20 with
        fields :=
          [⟨some exNatEntry, Option.none, Option.none, .scalar (.num 42), .scalar (.num 99)⟩,
           ⟨some exDevEntry, Option.none, Option.none, .scalar (.num 42), .scalar (.num 41)⟩] } := by
  have h := adjust_message_spec (fun _ => RVal.scalar (.num 99)) exMsg20
  have h20 := h.2.2.1 (by decide)
  have hcopy := h.2.2.2.2.2.2.2 [0, 23] 5
    ⟨some exDevEntry, Option.none, Option.none, .scalar (.num 42), .scalar (.num 41)⟩
    0 (by decide) (by decide)
  rw [h20, hcopy]
  decide

/-! Byte-level machinery: CRC, integer codec, reader/writer state. -/

/-- Modelled from the spec §6: the FIT-standard 16-bit CRC table of
`fitparse/utils.py` ("two 4-bit nibble lookups per byte; seed 0"). -/
def CRC_TABLE : List Nat :=
  [0x0000, 0xCC01, 0xD801, 0x1401, 0xF001, 0x3C01, 0x2801, 0xE401,
   0xA001, 0x6C01, 0x7801, 0xB401, 0x5001, 0x9C01, 0x8801, 0x4401]

/-- Modelled from the spec §6: one byte folded into the running CRC by
two nibble lookups (`calc_crc` of `fitparse/utils.py`, which is not in
the source tree). -/
def crc16_byte (crc byte : Nat) : Nat :=
  let tmp1 := CRC_TABLE.getD (crc &&& 0xF) 0
  let crc1 := ((crc >>> 4) &&& 0x0FFF) ^^^ tmp1 ^^^ CRC_TABLE.getD (byte &&& 0xF) 0
  let tmp2 := CRC_TABLE.getD (crc1 &&& 0xF) 0
  ((crc1 >>> 4) &&& 0x0FFF) ^^^ tmp2 ^^^ CRC_TABLE.getD ((byte >>> 4) &&& 0xF) 0

/-- Modelled from the spec §6: `calc_crc(byte_arr, crc)`: byte-by-byte
fold of `crc16_byte`. -/
def calc_crc (data : List Nat) (crc : Nat) : Nat :=
  data.foldl crc16_byte crc

/-- Little-endian unsigned decode of a byte list. -/
def bytesToNatLE : List Nat → Nat
  | [] => 0
  | b :: t => b + 256 * bytesToNatLE t

/-- Big-endian unsigned decode of a byte list. -/
def bytesToNatBE (l : List Nat) : Nat :=
  bytesToNatLE l.reverse

/-- Little-endian encode of a value into `size` bytes (truncating). -/
def natToBytesLE : Nat → Nat → List Nat
  | 0, _ => []
  | n + 1, v => (v % 256) :: natToBytesLE n (v / 256)

def natToBytesBE (size v : Nat) : List Nat :=
  (natToBytesLE size v).reverse

def decodeUInt : Endian → List Nat → Nat
  | .little, l => bytesToNatLE l
  | .big, l => bytesToNatBE l

def encodeUInt : Endian → Nat → Nat → List Nat
  | .little, size, v => natToBytesLE size v
  | .big, size, v => natToBytesBE size v

/-- Two's-complement reading of an unsigned `8*size`-bit pattern. -/
def toSigned (size u : Nat) : Int :=
  if u < 2 ^ (8 * size - 1) then (u : Int) else (u : Int) - 2 ^ (8 * size)

/-- Scalar decode of one base-type element from its wire bytes. -/
def decodeScalar (bt : BaseType) (e : Endian) (bytes : List Nat) : Int :=
  let u := decodeUInt e bytes
  if bt.signed then toSigned bt.size u else (u : Nat)

/-- Scalar encode of one base-type element (two's complement for signed
values). -/
def encodeScalar (bt : BaseType) (e : Endian) (v : Int) : List Nat :=
  encodeUInt e bt.size ((v % ((2 : Int) ^ (8 * bt.size))).toNat)

/-- Integer range accepted by `struct.pack` for a base type. -/
def packInRange (bt : BaseType) (v : Int) : Bool :=
  if bt.signed then
    decide (-(2 ^ (8 * bt.size - 1)) ≤ v ∧ v < 2 ^ (8 * bt.size - 1))
  else
    decide (0 ≤ v ∧ v < 2 ^ (8 * bt.size))

/-- Error taxonomy of the parser (§7 of the spec).  `FitParseError` has
three raise sites in `base.py`, kept as separate constructors;
`otherError` stands for Python exceptions that are not FIT errors
(`KeyError`/`AttributeError`/`struct.error`). -/
inductive Err where
  | headerError (msg : String)
  | eofError
  | crcError
  | invalidStructError
  | fieldSizeError (size bsize : Nat)
  | invalidLocalMesgError (n : Nat)
  | otherError (msg : String)
deriving Repr, DecidableEq

/-- The three `FitParseError` raise sites of `base.py`. -/
def Err.isParseError : Err → Bool
  | .invalidStructError => true
  | .fieldSizeError _ _ => true
  | .invalidLocalMesgError _ => true
  | _ => false

/-- Byte source and rewrite sink: the `FitFile` attributes `_file`
(with its read position), `_crc`, `_bytes_left`, `_out`, `_out_crc`.
`hasOut` records whether an output sink was attached. -/
structure RState where
  file : List Nat
  pos : Nat
  crc : Nat
  bytes_left : Int
  hasOut : Bool
  out : List Nat
  out_crc : Nat
deriving Repr, DecidableEq

/-- `FitFile._read`: returns `None` for a non-positive size, otherwise
reads up to `size` bytes (fewer at end of file, never an error), folds
them into the CRC and decrements `bytes_left` by the number of bytes
actually read. -/
def read_bytes (size : Int) (st : RState) : Option (List Nat) × RState :=
  if size ≤ 0 then (Option.none, st)
  else
    let data := (st.file.drop st.pos).take size.toNat
    (some data,
      { st with
        pos := st.pos + data.length
        crc := calc_crc data st.crc
        bytes_left := st.bytes_left - data.length })

/-- `FitFile._write`: appends to the sink and folds the sink CRC, but
only when a sink is attached and the data is non-empty (Python's
`if self._out and data`). -/
def write_bytes (data : List Nat) (st : RState) : RState :=
  if st.hasOut && !data.isEmpty then
    { st with out := st.out ++ data, out_crc := calc_crc data st.out_crc }
  else st

def write_bytes_opt (data : Option (List Nat)) (st : RState) : RState :=
  match data with
  | some d => write_bytes d st
  | Option.none => st

/-- Read side of `FitFile._read_struct` for a format of computed size
`size`: zero size is a structural violation; a short read is an EOF
error. -/
def read_struct_bytes (size : Nat) (st : RState) : Except Err (List Nat × RState) :=
  if size = 0 then .error .invalidStructError
  else
    match read_bytes (size : Int) st with
    | (some data, st') =>
      if data.length = size then .ok (data, st') else .error .eofError
    | (Option.none, _) => .error .eofError

/-- `FitFile._read_struct` applied to caller-supplied `data` (the
`data=header_data` call): no read happens, only the length check. -/
def check_struct_bytes (size : Nat) (data : List Nat) : Except Err (List Nat) :=
  if size = 0 then .error .invalidStructError
  else if data.length = size then .ok data else .error .eofError

/-- Write side of `FitFile._write_struct` for already-packed bytes of a
fixed positive-size format: no-op without a sink (the source returns
before the size check when `self._out is None`). -/
def write_struct_bytes (packed : List Nat) (st : RState) : RState :=
  if st.hasOut then write_bytes packed st else st

/-- `FitFile._read_and_assert_crc`: capture the expected CRC before
reading the stored little-endian 16-bit CRC, then raise `FitCRCError` on
a mismatch unless `allow_zero` and the stored value is `0`, and only
when `check_crc` is set. -/
def read_and_assert_crc (check_crc allow_zero : Bool) (st : RState) :
    Except Err RState :=
  let crc_expected := st.crc
  match read_struct_bytes 2 st with
  | .error e => .error e
  | .ok (data, st') =>
    let crc_actual := bytesToNatLE data
    if crc_actual ≠ crc_expected ∧ ¬(allow_zero = true ∧ crc_actual = 0) then
      if check_crc then .error .crcError else .ok st'
    else .ok st'

/-- `FitFile._write_crc`: emit the sink-side CRC, little-endian. -/
def write_crc (st : RState) : RState :=
  write_struct_bytes (natToBytesLE 2 st.out_crc) st

/-- The mutable decoding state of a `FitFile` beyond the byte source:
accumulators, completion flag, compressed-timestamp accumulator, the
local-message table, the message log, and the developer-field registry
(process-global in the reference; owned by the parser here, as §9 of the
spec recommends). -/
structure PState where
  rd : RState
  accumulators : List (Nat × List (Nat × Int))
  complete : Bool
  compressed_ts_accumulator : RVal
  local_mesgs : List (Nat × DefinitionMessage)
  messages : List Message
  dev_types : List ((Nat × Nat) × DevField)
deriving Repr, DecidableEq

/-- Static environment of a parse: the profile tables (external per §6),
the `check_crc` flag, and the externally supplied processor and
`decode_raw_value` hooks. -/
structure FitEnv where
  message_types : List (Nat × MessageType)
  check_crc : Bool
  run_type_processor : FieldData → RVal
  run_field_processor : FieldData → RVal
  run_unit_processor : FieldData → RVal
  run_message_processor : DataMessage → List RVal
  decode_raw_value : FieldData → RVal

/-- `MESSAGE_TYPES.get` (profile lookup, external per §6). -/
def FitEnv.getMesgType (env : FitEnv) (n : Nat) : Option MessageType :=
  (env.message_types.find? (fun p => p.1 == n)).map Prod.snd

/-- Association-list upsert used for accumulators and the registry. -/
def upsert {α β : Type} [BEq α] (key : α) (v : β) : List (α × β) → List (α × β)
  | [] => [(key, v)]
  | (k, w) :: t => if k == key then (k, v) :: t else (k, w) :: upsert key v t

def lookupA {α β : Type} [BEq α] (key : α) (l : List (α × β)) : Option β :=
  (l.find? (fun p => p.1 == key)).map Prod.snd

/-- The magic bytes `.FIT`. -/
def magicFIT : List Nat := [0x2E, 0x46, 0x49, 0x54]

/-- `FitFile._parse_file_header`: reset the decoding state, read and
check the 12-byte header, tee it to the sink, optionally verify the
header CRC and consume header padding, then set `bytes_left` to the
declared data size.  The display-only protocol/profile version floats
are not modelled. -/
def parse_file_header (check_crc : Bool) (st0 : PState) : Except Err PState :=
  let st : PState :=
    { st0 with
      accumulators := []
      complete := false
      compressed_ts_accumulator := .scalar (.num 0)
      local_mesgs := []
      messages := []
      rd := { st0.rd with crc := 0, out_crc := 0, bytes_left := -1 } }
  match read_bytes 12 st.rd with
  | (data?, rd1) =>
    let header_data := data?.getD []
    if (header_data.drop 8).take 4 ≠ magicFIT then
      .error (.headerError "Invalid .FIT File Header")
    else
      match check_struct_bytes 12 header_data with
      | .error e => .error e
      | .ok data =>
        let header_size := data.getD 0 0
        let data_size := bytesToNatLE ((data.drop 4).take 4)
        let rd2 := write_bytes header_data rd1
        let extra : Int := (header_size : Int) - 12
        if extra > 0 then
          if extra < 2 then .error (.headerError "Irregular File Header Size")
          else
            match read_and_assert_crc check_crc true rd2 with
            | .error e => .error e
            | .ok rd3 =>
              let rd4 := write_crc rd3
              match read_bytes (extra - 2) rd4 with
              | (unknown?, rd5) =>
                let rd6 := write_bytes_opt unknown? rd5
                .ok { st with rd := { rd6 with bytes_left := (data_size : Int) } }
        else
          .ok { st with rd := { rd2 with bytes_left := (data_size : Int) } }

/-! Record headers. -/

/-- `FitFile._parse_message_header`: one byte, bit-decoded into the
compressed-timestamp or normal variant. -/
def parse_message_header (st : RState) : Except Err (MessageHeader × RState) :=
  match read_struct_bytes 1 st with
  | .error e => .error e
  | .ok (data, st') =>
    let header := data.getD 0 0
    if header &&& 0x80 ≠ 0 then
      .ok (⟨false, false, (header >>> 5) &&& 0x3, some (header &&& 0x1F)⟩, st')
    else
      .ok (⟨header &&& 0x40 ≠ 0, header &&& 0x20 ≠ 0, header &&& 0xF, Option.none⟩, st')

/-- `FitFile._write_message_header`: re-encode the header byte. -/
def write_message_header (header : MessageHeader) (st : RState) : RState :=
  let data : Nat :=
    match header.time_offset with
    | some off =>
      0x80 ||| (header.local_mesg_num <<< 5) ||| off
    | Option.none =>
      (if header.is_definition then 0x40 else 0) |||
        (if header.is_developer_data then 0x20 else 0) ||| header.local_mesg_num
  write_struct_bytes [data % 256] st

/-! Definition messages. -/

/-- Modelled from the spec §4.4: `get_dev_type` resolves a developer
field via the registry keyed by `(dev_data_index, field_def_num)`; it
"may be absent — it will fail the later decode if so". -/
def get_dev_type (dev_data_index field_def_num : Nat)
    (reg : List ((Nat × Nat) × DevField)) : Option DevField :=
  lookupA (dev_data_index, field_def_num) reg

/-- Accumulator initialisation for a field's accumulating components
(lines 306-310 of `base.py`): `setdefault` the per-global dict, then set
the component's slot to 0. -/
def init_accumulators (global_mesg_num : Nat) (comps : List Component)
    (accs : List (Nat × List (Nat × Int))) : List (Nat × List (Nat × Int)) :=
  comps.foldl
    (fun a c =>
      if c.accumulate then
        upsert global_mesg_num (upsert c.def_num (0 : Int) ((lookupA global_mesg_num a).getD [])) a
      else a)
    accs

/-- Field-definition triples of `FitFile._parse_definition_message`:
read `num_fields` times `(def_num, size, base_type_num)`, resolve field
and base type, enforce the size-multiple invariant, and initialise
accumulators. -/
def parse_field_defs (mesg_type : Option MessageType) (endian : Endian)
    (global_mesg_num : Nat) :
    Nat → RState → List (Nat × List (Nat × Int)) →
    Except Err (List FieldDefinition × RState × List (Nat × List (Nat × Int)))
  | 0, rd, accs => .ok ([], rd, accs)
  | n + 1, rd, accs =>
    match read_struct_bytes 3 rd with
    | .error e => .error e
    | .ok (d, rd') =>
      let field_def_num := d.getD 0 0
      let field_size := d.getD 1 0
      let base_type_num := d.getD 2 0
      let field := mesg_type.bind (fun mt => mt.getField field_def_num)
      let base_type := (BASE_TYPES base_type_num).getD BASE_TYPE_BYTE
      if field_size % base_type.size ≠ 0 then
        .error (.fieldSizeError field_size base_type.size)
      else
        let accs' :=
          match field with
          | some f => init_accumulators global_mesg_num f.props.components accs
          | Option.none => accs
        match parse_field_defs mesg_type endian global_mesg_num n rd' accs' with
        | .error e => .error e
        | .ok (rest, rd'', accs'') =>
          .ok (⟨field, field_def_num, base_type, field_size⟩ :: rest, rd'', accs'')

/-- Developer-field-definition triples `(def_num, size, dev_data_index)`
of `FitFile._parse_definition_message`. -/
def parse_dev_field_defs (reg : List ((Nat × Nat) × DevField)) :
    Nat → RState → Except Err (List DevFieldDefinition × RState)
  | 0, rd => .ok ([], rd)
  | n + 1, rd =>
    match read_struct_bytes 3 rd with
    | .error e => .error e
    | .ok (d, rd') =>
      let field_def_num := d.getD 0 0
      let field_size := d.getD 1 0
      let dev_data_index := d.getD 2 0
      let field := get_dev_type dev_data_index field_def_num reg
      match parse_dev_field_defs reg n rd' with
      | .error e => .error e
      | .ok (rest, rd'') =>
        .ok (⟨field, dev_data_index, field_def_num, field_size⟩ :: rest, rd'')

/-- `FitFile._parse_definition_message`: reserved and architecture
bytes, endian-aware global message number and field count, the field
definitions, optional developer field definitions, and installation
under the local message slot. -/
def parse_definition_message (env : FitEnv) (header : MessageHeader) (st : PState) :
    Except Err (DefinitionMessage × PState) :=
  match read_struct_bytes 2 st.rd with
  | .error e => .error e
  | .ok (d1, rd1) =>
    let endian : Endian := if d1.getD 1 0 ≠ 0 then .big else .little
    match read_struct_bytes 3 rd1 with
    | .error e => .error e
    | .ok (d2, rd2) =>
      let global_mesg_num := decodeUInt endian (d2.take 2)
      let num_fields := d2.getD 2 0
      let mesg_type := env.getMesgType global_mesg_num
      match parse_field_defs mesg_type endian global_mesg_num num_fields rd2 st.accumulators with
      | .error e => .error e
      | .ok (field_defs, rd3, accs) =>
        let devStep : Except Err (List DevFieldDefinition × RState) :=
          if header.is_developer_data then
            match read_struct_bytes 1 rd3 with
            | .error e => .error e
            | .ok (dn, rd4) => parse_dev_field_defs st.dev_types (dn.getD 0 0) rd4
          else .ok ([], rd3)
        match devStep with
        | .error e => .error e
        | .ok (dev_field_defs, rd5) =>
          let def_mesg : DefinitionMessage :=
            ⟨header, endian, mesg_type, global_mesg_num, field_defs, dev_field_defs⟩
          .ok (def_mesg,
            { st with
              rd := rd5
              accumulators := accs
              local_mesgs := upsert header.local_mesg_num def_mesg st.local_mesgs })

/-- The `'3B'` pack of one field definition in
`FitFile._write_definition_message`. -/
def fieldDefTriple (fld : FieldDefinition) : List Nat :=
  [fld.def_num % 256, fld.size % 256, fld.base_type.identifier % 256]

/-- The `'3B'` pack of one developer field definition in
`FitFile._write_definition_message`. -/
def devFieldDefTriple (fld : DevFieldDefinition) : List Nat :=
  [fld.def_num % 256, fld.size % 256, fld.dev_data_index % 256]

/-- `FitFile._write_definition_message`: fixed little-endian re-encode
— `(0 : u16)` over the reserved/architecture bytes, the global message
number and field count, then the field triples (with the resolved base
type's identifier) and optional developer triples. -/
def write_definition_message (msg : DefinitionMessage) (st : RState) : RState :=
  let st1 := write_struct_bytes
    (natToBytesLE 2 0 ++ natToBytesLE 2 msg.mesg_num ++ [msg.field_defs.length % 256]) st
  let st2 := msg.field_defs.foldl
    (fun s fld => write_struct_bytes (fieldDefTriple fld) s) st1
  if msg.header.is_developer_data then
    let st3 := write_struct_bytes [msg.dev_field_defs.length % 256] st2
    msg.dev_field_defs.foldl
      (fun s fld => write_struct_bytes (devFieldDefTriple fld) s) st3
  else st2

/-! Data messages: raw extraction. -/

/-- Base type of a field-list entry.  For a developer entry this is the
registry field's type (`fitparse/records.py`); an unresolved developer
field fails here (the spec's "it will fail the later decode"), with a
Python attribute error, not a FIT error. -/
def FieldDefEntry.baseType : FieldDefEntry → Except Err BaseType
  | .norm fd => .ok fd.base_type
  | .dev dd =>
    match dd.field with
    | some f => .ok f.base_type
    | Option.none => .error (.otherError "unresolved dev field")

/-- Modelled from the spec: the static field descriptor attached to an
entry.  A developer field behaves as a plain field without sub-fields or
components (`fitparse/records.py`). -/
def FieldDefEntry.fieldObj : FieldDefEntry → Option Field
  | .norm fd => fd.field
  | .dev dd => dd.field.map (fun d => ⟨⟨d.name, d.def_num, 0, 0, [], []⟩, []⟩)

/-- Field-definition entries of a definition message in decode order:
`def_mesg.field_defs + def_mesg.dev_field_defs`. -/
def DefinitionMessage.entries (dm : DefinitionMessage) : List FieldDefEntry :=
  dm.field_defs.map .norm ++ dm.dev_field_defs.map .dev

/-- Unpack `count` base-type elements from wire bytes. -/
def unpackElems (e : Endian) (bt : BaseType) : Nat → List Nat → List Int
  | 0, _ => []
  | n + 1, data => decodeScalar bt e (data.take bt.size) :: unpackElems e bt n (data.drop bt.size)

/-- Modelled from the spec: the `byte` base type parses the whole tuple
at once — `none` when every element is the invalid sentinel, otherwise
the tuple unchanged. -/
def byte_parse (bt : BaseType) (elems : List Int) : RVal :=
  if elems.all (fun v => v == bt.invalid) then .scalar .none
  else .tup (elems.map .num)

/-- One iteration of `FitFile._parse_raw_values_from_data_message`:
compute the struct format `count = size / base_type.size` (note the
truncating division and that `count = 0` makes the format size zero, a
structural violation in `_read_struct`), read, unpack, and parse —
per-element for non-byte tuples, tuple-at-once for byte fields,
scalar otherwise. -/
def parse_one_raw (endian : Endian) (entry : FieldDefEntry) (rd : RState) :
    Except Err (RVal × RState) :=
  match entry.baseType with
  | .error e => .error e
  | .ok bt =>
    let is_byte := bt.name == "byte"
    let count := entry.size / bt.size
    match read_struct_bytes (count * bt.size) rd with
    | .error e => .error e
    | .ok (data, rd') =>
      let elems := unpackElems endian bt count data
      let raw : RVal :=
        if is_byte then byte_parse bt elems
        else if count = 1 then .scalar (bt.parse (elems.getD 0 0))
        else .tup (elems.map bt.parse)
      .ok (raw, rd')

/-- `FitFile._parse_raw_values_from_data_message`: raw values of all
entries, in definition order. -/
def parse_raw_values (endian : Endian) :
    List FieldDefEntry → RState → Except Err (List RVal × RState)
  | [], rd => .ok ([], rd)
  | entry :: rest, rd =>
    match parse_one_raw endian entry rd with
    | .error e => .error e
    | .ok (raw, rd') =>
      match parse_raw_values endian rest rd' with
      | .error e => .error e
      | .ok (raws, rd'') => .ok (raw :: raws, rd'')

/-! Data messages: field construction. -/

/-- Numeric core of `FitFile._apply_scale_offset`: divide by a truthy
(non-zero) scale, subtract a truthy offset. -/
def apply_scale_offset_num (scale offset : ℚ) (q : ℚ) : ℚ :=
  let q1 := if scale ≠ 0 then q / scale else q
  if offset ≠ 0 then q1 - offset else q1

/-- Scalar case of `FitFile._apply_scale_offset`: numeric values are
transformed (the result is a Python float as soon as a scale or offset
applies, an int otherwise), all other values pass through. -/
def apply_scale_offset_scalar (scale offset : ℚ) : SVal → SVal
  | .num i => if scale = 0 ∧ offset = 0 then .num i
      else .rat (apply_scale_offset_num scale offset (i : ℚ))
  | .rat q => if scale = 0 ∧ offset = 0 then .rat q
      else .rat (apply_scale_offset_num scale offset q)
  | v => v

/-- `FitFile._apply_scale_offset`: element-wise on tuples, scalar
otherwise. -/
def apply_scale_offset (scale offset : ℚ) : RVal → RVal
  | .tup vs => .tup (vs.map (apply_scale_offset_scalar scale offset))
  | .scalar v => .scalar (apply_scale_offset_scalar scale offset v)

/-- Modelled from the spec §4.5: `component.render` extracts the
component's bit slice from the parent raw value; multi-value tuples are
concatenated into a big integer with little-endian bit order (8 bits per
element); `none` (or a tuple containing `none`) renders as `none`. -/
def tuple_to_int : List SVal → Option Int
  | [] => some 0
  | .num i :: t => (tuple_to_int t).map (fun r => i + r * 256)
  | _ => Option.none

def component_render (c : Component) (raw : RVal) : Option Int :=
  match raw with
  | .scalar (.num i) => some (Int.fdiv i (2 ^ c.bit_offset) % ((2 : Int) ^ c.bits))
  | .tup vs => (tuple_to_int vs).map (fun n => Int.fdiv n (2 ^ c.bit_offset) % ((2 : Int) ^ c.bits))
  | _ => Option.none

/-- Modelled from the spec §3: the profile's optional renderer is not
specified; rendered values are kept as-is. -/
def field_render (_f : FProps) (v : RVal) : RVal := v

/-- Component expansion inside `FitFile._parse_data_message` (lines
463-496): render the bit slice, apply accumulation (a missing
accumulator dict is a Python `KeyError`), apply the component's scale
and offset, resolve the target field from the profile (a missing
message type or target field is again a non-FIT Python error), resolve
a possible sub-field, and emit a synthetic `FieldData` with
`field_def = None`. -/
def process_components (def_mesg : DefinitionMessage) (raws : List RVal) (raw_value : RVal) :
    List Component → List (Nat × List (Nat × Int)) →
    Except Err (List FieldData × List (Nat × List (Nat × Int)))
  | [], accs => .ok ([], accs)
  | c :: rest, accs =>
    let cmp0 := component_render c raw_value
    let accStep : Except Err (Option Int × List (Nat × List (Nat × Int))) :=
      match cmp0 with
      | some v =>
        if c.accumulate then
          match lookupA def_mesg.mesg_num accs with
          | Option.none => .error (.otherError "KeyError accumulators")
          | some dict =>
            match lookupA c.def_num dict with
            | Option.none => .error (.otherError "KeyError accumulator")
            | some stored =>
              let v' := apply_compressed_accumulation v stored c.bits
              .ok (some v', upsert def_mesg.mesg_num (upsert c.def_num v' dict) accs)
        else .ok (some v, accs)
      | Option.none => .ok (Option.none, accs)
    match accStep with
    | .error e => .error e
    | .ok (cmpv, accs') =>
      match def_mesg.mesg_type with
      | Option.none => .error (.otherError "AttributeError mesg_type")
      | some mt =>
        match mt.getField c.def_num with
        | Option.none => .error (.otherError "KeyError component field")
        | some cmp_field =>
          match process_components def_mesg raws raw_value rest accs' with
          | .error e => .error e
          | .ok (fds, accs'') =>
            let cmp_rv : RVal :=
              match cmpv with
              | some v => .scalar (.num v)
              | Option.none => .scalar .none
            let cmp_scaled := apply_scale_offset c.scale c.offset cmp_rv
            let rp := resolve_subfield cmp_field def_mesg.field_defs raws
            let cmp_value := field_render rp.1 cmp_scaled
            .ok (⟨Option.none, some rp.1, rp.2, cmp_value, cmp_scaled⟩ :: fds, accs'')

/-- One iteration of the per-entry loop of
`FitFile._parse_data_message` (lines 457-516): sub-field resolution,
component expansion, scale/offset on the main field, the
compressed-timestamp accumulator update, and the main `FieldData`. -/
def process_entry (def_mesg : DefinitionMessage) (raws : List RVal)
    (entry : FieldDefEntry) (raw_value : RVal)
    (accs : List (Nat × List (Nat × Int))) (ts : RVal) :
    Except Err ((List FieldData × FieldData) × List (Nat × List (Nat × Int)) × RVal) :=
  let core : Except Err (List FieldData × FieldData × List (Nat × List (Nat × Int))) :=
    match entry.fieldObj with
    | some field =>
      match process_components def_mesg raws raw_value
          (resolve_subfield field def_mesg.field_defs raws).1.components accs with
      | .error e => .error e
      | .ok (cmp_fds, accs') =>
        let rp := resolve_subfield field def_mesg.field_defs raws
        let value := apply_scale_offset rp.1.scale rp.1.offset (field_render rp.1 raw_value)
        .ok (cmp_fds, ⟨some entry, some rp.1, rp.2, value, raw_value⟩, accs')
    | Option.none =>
      .ok ([], ⟨some entry, Option.none, Option.none, raw_value, raw_value⟩, accs)
  match core with
  | .error e => .error e
  | .ok (cmp_fds, main, accs') =>
    let ts' :=
      if entry.def_num = FIELD_TYPE_TIMESTAMP.props.def_num ∧ raw_value.isNone = false then
        raw_value
      else ts
    .ok ((cmp_fds, main), accs', ts')

/-- The full per-entry loop, in order, threading accumulators and the
compressed-timestamp accumulator. -/
def process_entries (def_mesg : DefinitionMessage) (raws : List RVal) :
    List (FieldDefEntry × RVal) → List (Nat × List (Nat × Int)) → RVal →
    Except Err (List (List FieldData × FieldData) × List (Nat × List (Nat × Int)) × RVal)
  | [], accs, ts => .ok ([], accs, ts)
  | (entry, raw) :: rest, accs, ts =>
    match process_entry def_mesg raws entry raw accs ts with
    | .error e => .error e
    | .ok (group, accs', ts') =>
      match process_entries def_mesg raws rest accs' ts' with
      | .error e => .error e
      | .ok (groups, accs'', ts'') => .ok (group :: groups, accs'', ts'')

/-- Modelled from the spec §6: the three per-field processor hooks are
"side-effecting on the given value" — each replaces the rendered value
of the field data it is given. -/
def apply_field_processors (env : FitEnv) (fd : FieldData) : FieldData :=
  let fd1 := { fd with value := env.run_type_processor fd }
  let fd2 := { fd1 with value := env.run_field_processor fd1 }
  { fd2 with value := env.run_unit_processor fd2 }

/-- Modelled from the spec §6: the message processor hook side-effects
on the message's values: each field's rendered value may be replaced. -/
def apply_message_processor (env : FitEnv) (m : DataMessage) : DataMessage :=
  { m with
    fields := m.fields.mapIdx
      (fun i fd => { fd with value := (env.run_message_processor m).getD i fd.value }) }

/-- `FitFile._parse_data_message`: look up the installed definition,
extract raw values, run the per-entry loop, append the synthetic
compressed-timestamp field when the header is the compressed variant,
and run the processor hooks. -/
def parse_data_message (env : FitEnv) (header : MessageHeader) (st : PState) :
    Except Err (DataMessage × PState) :=
  match lookupA header.local_mesg_num st.local_mesgs with
  | Option.none => .error (.invalidLocalMesgError header.local_mesg_num)
  | some def_mesg =>
    match parse_raw_values def_mesg.endian def_mesg.entries st.rd with
    | .error e => .error e
    | .ok (raws, rd') =>
      match process_entries def_mesg raws (def_mesg.entries.zip raws)
          st.accumulators st.compressed_ts_accumulator with
      | .error e => .error e
      | .ok (groups, accs', ts') =>
        let core_fds := (groups.map (fun g => g.1 ++ [g.2])).flatten
        let tsStep : Except Err (List FieldData × RVal) :=
          match header.time_offset with
          | some off =>
            match ts' with
            | .scalar (.num i) =>
              let ts_value := apply_compressed_accumulation (off : Int) i 5
              let ts_rv : RVal := .scalar (.num ts_value)
              .ok ([⟨Option.none, some FIELD_TYPE_TIMESTAMP.props, Option.none,
                      field_render FIELD_TYPE_TIMESTAMP.props ts_rv, ts_rv⟩], ts_rv)
            | _ => .error (.otherError "TypeError compressed ts")
          | Option.none => .ok ([], ts')
        match tsStep with
        | .error e => .error e
        | .ok (ts_fds, ts'') =>
          let fds := (core_fds ++ ts_fds).map (apply_field_processors env)
          let dm : DataMessage := ⟨header, def_mesg, fds⟩
          let dm2 := apply_message_processor env dm
          .ok (dm2,
            { st with rd := rd', accumulators := accs', compressed_ts_accumulator := ts'' })

/-! Data messages: write side. -/

/-- Pack one already-unparsed scalar for `struct.pack`: only ints in
the base type's range are packable here (anything else raises a Python
`struct.error`; float formats are out of scope of this embedding and
reachable only through adjusted values). -/
def pack_one (bt : BaseType) (e : Endian) (v : SVal) : Except Err (List Nat) :=
  match v with
  | .num i => if packInRange bt i then .ok (encodeScalar bt e i) else .error (.otherError "struct.error range")
  | _ => .error (.otherError "struct.error type")

def pack_vals (bt : BaseType) (e : Endian) : List SVal → Except Err (List Nat)
  | [] => .ok []
  | v :: t =>
    match pack_one bt e v with
    | .error err => .error err
    | .ok bs =>
      match pack_vals bt e t with
      | .error err => .error err
      | .ok rest => .ok (bs ++ rest)

/-- One iteration of `FitFile._write_raw_values_from_data_message`:
recompute the struct format, unparse (a byte-typed `None` becomes
`size` copies of the invalid sentinel; otherwise `none` maps to the
sentinel and values pass through, element-wise on tuples), and write.
Without a sink `_write_struct` returns before any size check; with one,
a zero-size format is a structural violation and a value/arity mismatch
is a Python `struct.error`. -/
def write_one_raw (e : Endian) (entry : FieldDefEntry) (raw : RVal) (rd : RState) :
    Except Err RState :=
  match entry.baseType with
  | .error err => .error err
  | .ok bt =>
    let is_byte := bt.name == "byte"
    let count := entry.size / bt.size
    if rd.hasOut = false then .ok rd
    else if count * bt.size = 0 then .error .invalidStructError
    else
      let vals : List SVal :=
        if is_byte && raw.isNone then List.replicate entry.size (.num bt.invalid)
        else
          match raw with
          | .scalar v => [bt.unparse v]
          | .tup vs => vs.map bt.unparse
      let arity_ok : Bool :=
        match raw with
        | .tup _ => vals.length == count
        | .scalar _ => if is_byte && raw.isNone then vals.length == count else count == 1
      if arity_ok then
        match pack_vals bt e vals with
        | .error err => .error err
        | .ok packed => .ok (write_bytes packed rd)
      else .error (.otherError "struct.error arity")

/-- `FitFile._write_raw_values_from_data_message`: zip entries with raw
values and write each. -/
def write_raw_values (e : Endian) :
    List (FieldDefEntry × RVal) → RState → Except Err RState
  | [], rd => .ok rd
  | (entry, raw) :: rest, rd =>
    match write_one_raw e entry raw rd with
    | .error err => .error err
    | .ok rd' => write_raw_values e rest rd'

/-- `FitFile._write_data_message`: collect the raw values of the
entries that carry a `field_def` (synthetic component and timestamp
entries carry none) and re-emit them. -/
def write_data_message (msg : DataMessage) (rd : RState) : Except Err RState :=
  let raw_values := (msg.fields.filter (fun f => f.field_def.isSome)).map (fun f => f.raw_value)
  write_raw_values msg.def_mesg.endian (msg.def_mesg.entries.zip raw_values) rd

/-! Developer-field registration and the stream driver. -/

/-- Helper: first raw value in a message carried by an entry of the
given definition number. -/
def msg_raw_by_def_num (m : DataMessage) (n : Nat) : Option RVal :=
  (m.fields.find? (fun fd =>
    match fd.field_def with
    | some e => e.def_num == n
    | Option.none => false)).map (fun fd => fd.raw_value)

/-- Modelled from the spec §4.5: `add_dev_data_id` records the
developer-data announcement; it adds nothing to the field registry
keyed by `(dev_data_index, field_def_num)`. -/
def add_dev_data_id (_m : DataMessage) (reg : List ((Nat × Nat) × DevField)) :
    List ((Nat × Nat) × DevField) := reg

/-- Modelled from the spec §4.5 and §6: `add_dev_field_description`
registers a developer field schema from a `field_description` data
message — developer data index (def_num 0), field definition number
(def_num 1), base type id (def_num 2, registry fallback `byte`), and
field name (def_num 3). -/
def add_dev_field_description (m : DataMessage) (reg : List ((Nat × Nat) × DevField)) :
    List ((Nat × Nat) × DevField) :=
  match msg_raw_by_def_num m 0, msg_raw_by_def_num m 1 with
  | some (.scalar (.num idx)), some (.scalar (.num dn)) =>
    if 0 ≤ idx ∧ 0 ≤ dn then
      let bt :=
        match msg_raw_by_def_num m 2 with
        | some (.scalar (.num b)) => if 0 ≤ b then (BASE_TYPES b.toNat).getD BASE_TYPE_BYTE else BASE_TYPE_BYTE
        | _ => BASE_TYPE_BYTE
      let name :=
        match msg_raw_by_def_num m 3 with
        | some (.scalar (.str s)) => s
        | _ => ""
      upsert (idx.toNat, dn.toNat) ⟨idx.toNat, dn.toNat, bt, name⟩ reg
    else reg
  | _, _ => reg

/-- Registration step of `FitFile._parse_message` (lines 245-249):
`developer_data_id` and `field_description` data messages update the
registry. -/
def register_dev_message (dm : DataMessage) (reg : List ((Nat × Nat) × DevField)) :
    List ((Nat × Nat) × DevField) :=
  match dm.def_mesg.mesg_type with
  | some mt =>
    if mt.name == "developer_data_id" then add_dev_data_id dm reg
    else if mt.name == "field_description" then add_dev_field_description dm reg
    else reg
  | Option.none => reg

/-- `FitFile._parse_message`, the top-level step: at the end of the
record section verify the trailing CRC, then either finish or re-parse a
chained file header; otherwise read one record header, tee it, dispatch
to the definition or data decoder (data messages are adjusted, written,
and registered), and log the message.  The structural recursion of the
source (chained files) is bounded by explicit fuel; every recursive call
follows a header parse that consumes input, so file-length fuel
suffices. -/
def parse_message (env : FitEnv) : Nat → PState → Except Err (Option Message × PState)
  | 0, _ => .error (.otherError "out of fuel")
  | fuel + 1, st0 =>
    if st0.rd.bytes_left ≤ 0 then
      let crcStep : Except Err PState :=
        if st0.complete = false then
          match read_and_assert_crc env.check_crc false st0.rd with
          | .error e => .error e
          | .ok rd1 => .ok { st0 with rd := write_crc rd1 }
        else .ok st0
      match crcStep with
      | .error e => .error e
      | .ok st1 =>
        if st1.rd.pos ≥ st1.rd.file.length then
          .ok (Option.none, { st1 with complete := true })
        else
          match parse_file_header env.check_crc st1 with
          | .error e => .error e
          | .ok st2 => parse_message env fuel st2
    else
      match parse_message_header st0.rd with
      | .error e => .error e
      | .ok (header, rd1) =>
        let rd2 := write_message_header header rd1
        if header.is_definition then
          match parse_definition_message env header { st0 with rd := rd2 } with
          | .error e => .error e
          | .ok (msg, st') =>
            let rd3 := write_definition_message msg st'.rd
            .ok (some (.defn msg),
              { st' with rd := rd3, messages := st'.messages ++ [.defn msg] })
        else
          match parse_data_message env header { st0 with rd := rd2 } with
          | .error e => .error e
          | .ok (dm, st') =>
            let dm' :=
              match adjust_message env.decode_raw_value (.data dm) with
              | .data d => d
              | .defn _ => dm
            match write_data_message dm' st'.rd with
            | .error e => .error e
            | .ok rd3 =>
              .ok (some (.data dm'),
                { st' with
                  rd := rd3
                  dev_types := register_dev_message dm' st'.dev_types
                  messages := st'.messages ++ [.data dm'] })

/-- `FitFile.parse`: drive `_parse_message` until it reports
completion.  Fuel bounds the loop; a `FitFile` run needs at most
`file length + 2` iterations since every iteration either consumes
input or completes. -/
def parse_all (env : FitEnv) : Nat → PState → Except Err PState
  | 0, _ => .error (.otherError "out of fuel")
  | fuel + 1, st =>
    match parse_message env (fuel + 1) st with
    | .error e => .error e
    | .ok (Option.none, st') => .ok st'
    | .ok (some _, st') => parse_all env fuel st'

/-- `FitFile.__init__` followed by `FitFile.parse`: build the initial
state from the input bytes and the sink flag, parse the file header,
then all messages. -/
def initial_state (file : List Nat) (hasOut : Bool) : PState :=
  { rd := ⟨file, 0, 0, -1, hasOut, [], 0⟩
    accumulators := []
    complete := false
    compressed_ts_accumulator := .scalar (.num 0)
    local_mesgs := []
    messages := []
    dev_types := [] }

def run_fitfile (env : FitEnv) (file : List Nat) (hasOut : Bool) : Except Err PState :=
  match parse_file_header env.check_crc (initial_state file hasOut) with
  | .error e => .error e
  | .ok st => parse_all env (file.length + 2) st

/-! Projection lemmas: the write side only touches `out` and `out_crc`;
the read side only touches `pos`, `crc` and `bytes_left`. -/

@[simp] theorem write_bytes_file (d : List Nat) (st : RState) : (write_bytes d st).file = st.file := by
  unfold write_bytes
  split <;> rfl

@[simp] theorem write_bytes_pos (d : List Nat) (st : RState) : (write_bytes d st).pos = st.pos := by
  unfold write_bytes
  split <;> rfl

@[simp] theorem write_bytes_crc (d : List Nat) (st : RState) : (write_bytes d st).crc = st.crc := by
  unfold write_bytes
  split <;> rfl

@[simp] theorem write_bytes_bytes_left (d : List Nat) (st : RState) :
    (write_bytes d st).bytes_left = st.bytes_left := by
  unfold write_bytes
  split <;> rfl

@[simp] theorem write_bytes_hasOut (d : List Nat) (st : RState) :
    (write_bytes d st).hasOut = st.hasOut := by
  unfold write_bytes
  split <;> rfl

@[simp] theorem write_bytes_opt_file (d : Option (List Nat)) (st : RState) :
    (write_bytes_opt d st).file = st.file := by
  cases d <;> simp [write_bytes_opt]

@[simp] theorem write_bytes_opt_pos (d : Option (List Nat)) (st : RState) :
    (write_bytes_opt d st).pos = st.pos := by
  cases d <;> simp [write_bytes_opt]

@[simp] theorem write_bytes_opt_crc (d : Option (List Nat)) (st : RState) :
    (write_bytes_opt d st).crc = st.crc := by
  cases d <;> simp [write_bytes_opt]

@[simp] theorem write_bytes_opt_bytes_left (d : Option (List Nat)) (st : RState) :
    (write_bytes_opt d st).bytes_left = st.bytes_left := by
  cases d <;> simp [write_bytes_opt]

@[simp] theorem write_bytes_opt_hasOut (d : Option (List Nat)) (st : RState) :
    (write_bytes_opt d st).hasOut = st.hasOut := by
  cases d <;> simp [write_bytes_opt]

@[simp] theorem write_struct_bytes_file (d : List Nat) (st : RState) :
    (write_struct_bytes d st).file = st.file := by
  unfold write_struct_bytes
  split <;> simp

@[simp] theorem write_struct_bytes_pos (d : List Nat) (st : RState) :
    (write_struct_bytes d st).pos = st.pos := by
  unfold write_struct_bytes
  split <;> simp

@[simp] theorem write_struct_bytes_crc (d : List Nat) (st : RState) :
    (write_struct_bytes d st).crc = st.crc := by
  unfold write_struct_bytes
  split <;> simp

@[simp] theorem write_struct_bytes_bytes_left (d : List Nat) (st : RState) :
    (write_struct_bytes d st).bytes_left = st.bytes_left := by
  unfold write_struct_bytes
  split <;> simp

@[simp] theorem write_struct_bytes_hasOut (d : List Nat) (st : RState) :
    (write_struct_bytes d st).hasOut = st.hasOut := by
  unfold write_struct_bytes
  split <;> simp

@[simp] theorem write_crc_file (st : RState) : (write_crc st).file = st.file := by
  simp [write_crc]

@[simp] theorem write_crc_pos (st : RState) : (write_crc st).pos = st.pos := by
  simp [write_crc]

@[simp] theorem write_crc_crc (st : RState) : (write_crc st).crc = st.crc := by
  simp [write_crc]

@[simp] theorem write_crc_bytes_left (st : RState) : (write_crc st).bytes_left = st.bytes_left := by
  simp [write_crc]

@[simp] theorem write_crc_hasOut (st : RState) : (write_crc st).hasOut = st.hasOut := by
  simp [write_crc]

/-! Helper lemmas about `parse_file_header`. -/

/-- The first 12 bytes available at the current position. -/
def fileHeaderBytes (st0 : PState) : List Nat :=
  (st0.rd.file.drop st0.rd.pos).take 12

theorem parse_file_header_magic_fail (c : Bool) (st0 : PState)
    (h : ((fileHeaderBytes st0).drop 8).take 4 ≠ magicFIT) :
    parse_file_header c st0 = .error (.headerError "Invalid .FIT File Header") := by
  unfold parse_file_header
  simp [read_bytes, fileHeaderBytes] at h ⊢
  exact fun hc => absurd hc h

theorem fileHeaderBytes_length (st0 : PState)
    (hmagic : ((fileHeaderBytes st0).drop 8).take 4 = magicFIT) :
    (fileHeaderBytes st0).length = 12 ∧ st0.rd.pos + 12 ≤ st0.rd.file.length := by
  have hlen := congrArg List.length hmagic
  simp [magicFIT, fileHeaderBytes] at hlen ⊢
  omega

/-- Success of `_parse_file_header` for a legacy header
(`header_size ≤ 12`): exactly the 12 header bytes are consumed and
`bytes_left` becomes the little-endian `data_size` of bytes 4-7. -/
theorem parse_file_header_small (c : Bool) (st0 : PState)
    (hmagic : ((fileHeaderBytes st0).drop 8).take 4 = magicFIT)
    (hs_le : (fileHeaderBytes st0).getD 0 0 ≤ 12) :
    ∃ st', parse_file_header c st0 = .ok st' ∧
      st'.rd.file = st0.rd.file ∧
      st'.rd.pos = st0.rd.pos + 12 ∧
      st'.rd.crc = calc_crc (fileHeaderBytes st0) 0 ∧
      st'.rd.bytes_left = (bytesToNatLE (((fileHeaderBytes st0).drop 4).take 4) : Int) ∧
      st'.local_mesgs = [] ∧ st'.messages = [] ∧ st'.complete = false := by
  obtain ⟨hl, hp⟩ := fileHeaderBytes_length st0 hmagic
  unfold parse_file_header
  simp [fileHeaderBytes] at hmagic hs_le hl
  have hidx : st0.rd.pos < st0.rd.file.length := by omega
  rw [List.getElem?_eq_getElem hidx, Option.getD_some] at hs_le
  simp [read_bytes, check_struct_bytes, fileHeaderBytes, hmagic, Nat.min_eq_left,
    Nat.not_lt.mpr hs_le, show 12 ≤ st0.rd.file.length - st0.rd.pos by omega]

/-- A declared header size of 13 is rejected: the extra header field
must be at least 2 bytes. -/
theorem parse_file_header_irregular (c : Bool) (st0 : PState)
    (hmagic : ((fileHeaderBytes st0).drop 8).take 4 = magicFIT)
    (hs13 : (fileHeaderBytes st0).getD 0 0 = 13) :
    parse_file_header c st0 = .error (.headerError "Irregular File Header Size") := by
  obtain ⟨hl, hp⟩ := fileHeaderBytes_length st0 hmagic
  unfold parse_file_header
  simp [fileHeaderBytes] at hmagic hs13 hl
  have hidx : st0.rd.pos < st0.rd.file.length := by omega
  rw [List.getElem?_eq_getElem hidx, Option.getD_some] at hs13
  simp [read_bytes, check_struct_bytes, fileHeaderBytes, hmagic, Nat.min_eq_left, hs13,
    show 12 ≤ st0.rd.file.length - st0.rd.pos by omega]

/-- Behaviour of `_read_and_assert_crc` when the stored CRC passes (it
matches, or is an accepted zero sentinel, or `check_crc` is off). -/
theorem read_and_assert_crc_pass (c az : Bool) (st : RState)
    (h2 : st.pos + 2 ≤ st.file.length)
    (hok : (bytesToNatLE ((st.file.drop st.pos).take 2) = st.crc ∨
            (az = true ∧ bytesToNatLE ((st.file.drop st.pos).take 2) = 0)) ∨ c = false) :
    read_and_assert_crc c az st = .ok
      { st with
        pos := st.pos + 2
        crc := calc_crc ((st.file.drop st.pos).take 2) st.crc
        bytes_left := st.bytes_left - 2 } := by
  unfold read_and_assert_crc read_struct_bytes
  have hlen : ((st.file.drop st.pos).take 2).length = 2 := by
    simp
    omega
  simp [read_bytes, hlen, Nat.min_eq_left (show 2 ≤ st.file.length - st.pos by omega)]
  intro h1 h2
  rcases hok with (h | ⟨ha, h0⟩) | hc
  · exact absurd h h1
  · exact absurd h0 (h2 ha)
  · exact hc

/-- Behaviour of `_read_and_assert_crc` on a true mismatch with
`check_crc` on. -/
theorem read_and_assert_crc_fail (c az : Bool) (st : RState)
    (h2 : st.pos + 2 ≤ st.file.length)
    (hne : bytesToNatLE ((st.file.drop st.pos).take 2) ≠ st.crc)
    (hnz : ¬(az = true ∧ bytesToNatLE ((st.file.drop st.pos).take 2) = 0))
    (hc : c = true) :
    read_and_assert_crc c az st = .error .crcError := by
  unfold read_and_assert_crc read_struct_bytes
  have hlen : ((st.file.drop st.pos).take 2).length = 2 := by
    simp
    omega
  simp [read_bytes, hlen, Nat.min_eq_left (show 2 ≤ st.file.length - st.pos by omega),
    hne, hc]
  intro ha h0
  exact hnz ⟨ha, h0⟩

/-- Success of `_parse_file_header` for an extended header
(`header_size ≥ 14`): the stored header CRC passes (match, zero
sentinel, or `check_crc` off), all `header_size` bytes are consumed
(bytes beyond 14 read and discarded), and `bytes_left` becomes the
declared data size. -/
theorem parse_file_header_ext_pass (c : Bool) (st0 : PState)
    (hmagic : ((fileHeaderBytes st0).drop 8).take 4 = magicFIT)
    (hs14 : 14 ≤ (fileHeaderBytes st0).getD 0 0)
    (henough : st0.rd.pos + (fileHeaderBytes st0).getD 0 0 ≤ st0.rd.file.length)
    (hok : bytesToNatLE ((st0.rd.file.drop (st0.rd.pos + 12)).take 2) =
             calc_crc (fileHeaderBytes st0) 0 ∨
           bytesToNatLE ((st0.rd.file.drop (st0.rd.pos + 12)).take 2) = 0 ∨ c = false) :
    ∃ st', parse_file_header c st0 = .ok st' ∧
      st'.rd.file = st0.rd.file ∧
      st'.rd.pos = st0.rd.pos + (fileHeaderBytes st0).getD 0 0 ∧
      st'.rd.bytes_left = (bytesToNatLE (((fileHeaderBytes st0).drop 4).take 4) : Int) ∧
      st'.local_mesgs = [] ∧ st'.messages = [] ∧ st'.complete = false := by
  obtain ⟨hl, hp⟩ := fileHeaderBytes_length st0 hmagic
  unfold parse_file_header
  simp [fileHeaderBytes] at hmagic hs14 henough hok ⊢
  have hidx : st0.rd.pos < st0.rd.file.length := by omega
  rw [List.getElem?_eq_getElem hidx, Option.getD_some] at hs14 henough
  have h12 : 12 ≤ st0.rd.file.length - st0.rd.pos := by omega
  have h2c : 2 ≤ st0.rd.file.length - (st0.rd.pos + 12) := by omega
  have hgt : 12 < st0.rd.file[st0.rd.pos] := by omega
  have hnlt : ¬((st0.rd.file[st0.rd.pos] : Int) - 12 < 2) := by
    omega
  have hget : st0.rd.file[st0.rd.pos]? = some st0.rd.file[st0.rd.pos] :=
    List.getElem?_eq_getElem hidx
  rcases Nat.eq_or_lt_of_le hs14 with he | he
  · have hcase : st0.rd.file[st0.rd.pos] ≤ 14 := by omega
    rcases hok with h | h | h <;>
      simp [read_bytes, check_struct_bytes, read_and_assert_crc, read_struct_bytes,
        write_crc, Nat.min_eq_left, hmagic, hgt, hnlt, h, h12, h2c, hcase, hget] <;>
      omega
  · have hcase : ¬(st0.rd.file[st0.rd.pos] ≤ 14) := by omega
    rcases hok with h | h | h <;>
      simp [read_bytes, check_struct_bytes, read_and_assert_crc, read_struct_bytes,
        write_crc, Nat.min_eq_left, hmagic, hgt, hnlt, h, h12, h2c, hcase, hget] <;>
      omega

/-- Failure of `_parse_file_header` for an extended header when the
stored CRC differs from the CRC of the first 12 bytes, is not the zero
sentinel, and `check_crc` is on. -/
theorem parse_file_header_ext_fail (st0 : PState)
    (hmagic : ((fileHeaderBytes st0).drop 8).take 4 = magicFIT)
    (hs14 : 14 ≤ (fileHeaderBytes st0).getD 0 0)
    (henough : st0.rd.pos + (fileHeaderBytes st0).getD 0 0 ≤ st0.rd.file.length)
    (hne : bytesToNatLE ((st0.rd.file.drop (st0.rd.pos + 12)).take 2) ≠
             calc_crc (fileHeaderBytes st0) 0)
    (hnz : bytesToNatLE ((st0.rd.file.drop (st0.rd.pos + 12)).take 2) ≠ 0) :
    parse_file_header true st0 = .error .crcError := by
  obtain ⟨hl, hp⟩ := fileHeaderBytes_length st0 hmagic
  unfold parse_file_header
  simp [fileHeaderBytes] at hmagic hs14 henough hne hnz ⊢
  have hidx : st0.rd.pos < st0.rd.file.length := by omega
  rw [List.getElem?_eq_getElem hidx, Option.getD_some] at hs14 henough
  have h12 : 12 ≤ st0.rd.file.length - st0.rd.pos := by omega
  have h2c : 2 ≤ st0.rd.file.length - (st0.rd.pos + 12) := by omega
  have hgt : 12 < st0.rd.file[st0.rd.pos] := by omega
  have hnlt : ¬((st0.rd.file[st0.rd.pos] : Int) - 12 < 2) := by omega
  simp [read_bytes, check_struct_bytes, read_and_assert_crc, read_struct_bytes,
    Nat.min_eq_left, hmagic, hgt, hnlt, h12, h2c, hne, hnz]

/-- C8: file header parsing.  Exactly 12 bytes are read first and
`HeaderError` is raised when bytes 8-11 are not `.FIT`; with
`header_size ≤ 12` parsing succeeds, consuming exactly those 12 bytes;
`header_size` 13 raises `HeaderError`; with `header_size ≥ 14` a 2-byte
CRC is read and verified against the CRC accumulated over the first 12
bytes, with 0 accepted as an unchecked sentinel, the bytes beyond 14 up
to `header_size` are read and discarded, and a true mismatch raises
`CrcError` when `check_crc` is on; in every successful case
`bytes_left` afterwards equals `data_size`, the little-endian u32 of
header bytes 4-7. -/
theorem file_header_parsing_spec (c : Bool) (st0 : PState) :
    (((fileHeaderBytes st0).drop 8).take 4 ≠ magicFIT →
      parse_file_header c st0 = .error (.headerError "Invalid .FIT File Header")) ∧
    (((fileHeaderBytes st0).drop 8).take 4 = magicFIT →
      (fileHeaderBytes st0).getD 0 0 ≤ 12 →
      ∃ st', parse_file_header c st0 = .ok st' ∧
        st'.rd.file = st0.rd.file ∧
        st'.rd.pos = st0.rd.pos + 12 ∧
        st'.rd.crc = calc_crc (fileHeaderBytes st0) 0 ∧
        st'.rd.bytes_left = (bytesToNatLE (((fileHeaderBytes st0).drop 4).take 4) : Int) ∧
        st'.local_mesgs = [] ∧ st'.messages = [] ∧ st'.complete = false) ∧
    (((fileHeaderBytes st0).drop 8).take 4 = magicFIT →
      (fileHeaderBytes st0).getD 0 0 = 13 →
      parse_file_header c st0 = .error (.headerError "Irregular File Header Size")) ∧
    (((fileHeaderBytes st0).drop 8).take 4 = magicFIT →
      14 ≤ (fileHeaderBytes st0).getD 0 0 →
      st0.rd.pos + (fileHeaderBytes st0).getD 0 0 ≤ st0.rd.file.length →
      (bytesToNatLE ((st0.rd.file.drop (st0.rd.pos + 12)).take 2) =
          calc_crc (fileHeaderBytes st0) 0 ∨
        bytesToNatLE ((st0.rd.file.drop (st0.rd.pos + 12)).take 2) = 0 ∨ c = false) →
      ∃ st', parse_file_header c st0 = .ok st' ∧
        st'.rd.file = st0.rd.file ∧
        st'.rd.pos = st0.rd.pos + (fileHeaderBytes st0).getD 0 0 ∧
        st'.rd.bytes_left = (bytesToNatLE (((fileHeaderBytes st0).drop 4).take 4) : Int) ∧
        st'.local_mesgs = [] ∧ st'.messages = [] ∧ st'.complete = false) ∧
    (((fileHeaderBytes st0).drop 8).take 4 = magicFIT →
      14 ≤ (fileHeaderBytes st0).getD 0 0 →
      st0.rd.pos + (fileHeaderBytes st0).getD 0 0 ≤ st0.rd.file.length →
      bytesToNatLE ((st0.rd.file.drop (st0.rd.pos + 12)).take 2) ≠
        calc_crc (fileHeaderBytes st0) 0 →
      bytesToNatLE ((st0.rd.file.drop (st0.rd.pos + 12)).take 2) ≠ 0 →
      c = true →
      parse_file_header c st0 = .error .crcError) :=
  ⟨fun h => parse_file_header_magic_fail c st0 h,
   fun hm hs => parse_file_header_small c st0 hm hs,
   fun hm hs => parse_file_header_irregular c st0 hm hs,
   fun hm hs he hok => parse_file_header_ext_pass c st0 hm hs he hok,
   fun hm hs he hne hnz hc => by
     cases hc
     exact parse_file_header_ext_fail st0 hm hs he hne hnz⟩

/-- Minimal 12-byte header (`header_size = 12`, `data_size = 11`) for
the C8 witness. -/
def wHeaderFile : List Nat :=
  [0x0C, 0x10, 0x64, 0x00, 0x0B, 0x00, 0x00, 0x00, 0x2E, 0x46, 0x49, 0x54]

/-- Witness for `file_header_parsing_spec`: on the concrete minimal
header the legacy branch succeeds with `bytes_left = 11`. -/
theorem file_header_parsing_spec_witness :
    ∃ st', parse_file_header true (initial_state wHeaderFile false) = .ok st' ∧
      st'.rd.file = (initial_state wHeaderFile false).rd.file ∧
      st'.rd.pos = (initial_state wHeaderFile false).rd.pos + 12 ∧
      st'.rd.crc = calc_crc (fileHeaderBytes (initial_state wHeaderFile false)) 0 ∧
      st'.rd.bytes_left =
        (bytesToNatLE (((fileHeaderBytes (initial_state wHeaderFile false)).drop 4).take 4) : Int) ∧
      st'.local_mesgs = [] ∧ st'.messages = [] ∧ st'.complete = false :=
  (file_header_parsing_spec true (initial_state wHeaderFile false)).2.1
    (by decide) (by decide)

/-- C10: inputs shorter than 12 bytes fail header construction with
`HeaderError` (the magic comparison is performed on the short buffer),
not an end-of-file error; and the low-level `_read` never raises on a
short read — it returns `None` for a non-positive size and `some` of
whatever bytes are available otherwise. -/
theorem short_input_header_error (file : List Nat) (c hasOut : Bool)
    (hshort : file.length < 12) :
    parse_file_header c (initial_state file hasOut) =
      .error (.headerError "Invalid .FIT File Header") ∧
    (∀ (size : Int) (st : RState), size ≤ 0 → (read_bytes size st).1 = Option.none) ∧
    (∀ (size : Int) (st : RState), 0 < size →
      (read_bytes size st).1 = some ((st.file.drop st.pos).take size.toNat)) := by
  refine ⟨?_, ?_, ?_⟩
  · apply parse_file_header_magic_fail
    intro heq
    have hlen := congrArg List.length heq
    simp [magicFIT, fileHeaderBytes, initial_state] at hlen
    omega
  · intro size st h
    simp [read_bytes, h]
  · intro size st h
    simp [read_bytes, not_le.mpr h]

/-- Witness for `short_input_header_error` at the 3-byte input
`[0x2E, 0x46, 0x49]`. -/
theorem short_input_header_error_witness :
    parse_file_header true (initial_state [0x2E, 0x46, 0x49] false) =
      .error (.headerError "Invalid .FIT File Header") ∧
    (∀ (size : Int) (st : RState), size ≤ 0 → (read_bytes size st).1 = Option.none) ∧
    (∀ (size : Int) (st : RState), 0 < size →
      (read_bytes size st).1 = some ((st.file.drop st.pos).take size.toNat)) :=
  short_input_header_error [0x2E, 0x46, 0x49] true false (by decide)

/-- C9: footer CRC verification.  With the record section exhausted
(`bytes_left ≤ 0`, not complete) and the 2 trailing bytes the last of
the file, the driver reads the little-endian trailing CRC and compares
it against the running CRC attribute — whose value, as the final
conjunct shows, is exactly the fold of every byte `_read` returned, so
the two trailing bytes are excluded from the compared value since the
comparison captures the attribute before the read.  A mismatch raises
`CrcError` when and only when `check_crc` is on; there is no allow-zero
sentinel here (a stored 0 with a non-zero running CRC still fails). -/
theorem footer_crc_check (env : FitEnv) (fuel : Nat) (st : PState)
    (hbl : st.rd.bytes_left ≤ 0) (hcomp : st.complete = false)
    (h2 : st.rd.pos + 2 ≤ st.rd.file.length)
    (hend : st.rd.file.length ≤ st.rd.pos + 2) :
    (bytesToNatLE ((st.rd.file.drop st.rd.pos).take 2) ≠ st.rd.crc →
      env.check_crc = true →
      parse_message env (fuel + 1) st = .error .crcError) ∧
    (bytesToNatLE ((st.rd.file.drop st.rd.pos).take 2) = 0 →
      st.rd.crc ≠ 0 → env.check_crc = true →
      parse_message env (fuel + 1) st = .error .crcError) ∧
    (bytesToNatLE ((st.rd.file.drop st.rd.pos).take 2) = st.rd.crc ∨ env.check_crc = false →
      ∃ st', parse_message env (fuel + 1) st = .ok (Option.none, st') ∧
        st'.complete = true ∧ st'.rd.pos = st.rd.pos + 2) ∧
    (∀ (size : Int) (st1 : RState) (d : List Nat),
      (read_bytes size st1).1 = some d →
      (read_bytes size st1).2.crc = calc_crc d st1.crc) := by
  refine ⟨?_, ?_, ?_, ?_⟩
  · intro hne hc
    unfold parse_message
    rw [if_pos hbl]
    simp only [hcomp]
    rw [read_and_assert_crc_fail env.check_crc false st.rd h2 hne (by simp) hc]
    simp
  · intro hz hne hc
    unfold parse_message
    rw [if_pos hbl]
    simp only [hcomp]
    rw [read_and_assert_crc_fail env.check_crc false st.rd h2 (by omega) (by simp) hc]
    simp
  · intro hok
    unfold parse_message
    rw [if_pos hbl]
    simp only [hcomp]
    rw [read_and_assert_crc_pass env.check_crc false st.rd h2 (by tauto)]
    simp [hend]
  · intro size st1 d h
    unfold read_bytes at h ⊢
    by_cases hs : size ≤ 0
    · rw [if_pos hs] at h
      exact absurd h (by simp)
    · rw [if_neg hs] at h ⊢
      simp at h
      simp [← h]

/-- A default environment: empty profile, `check_crc` on, processors
and `decode_raw_value` that keep values unchanged. -/
def envDefault : FitEnv :=
  ⟨[], true, fun fd => fd.value, fun fd => fd.value, fun fd => fd.value,
   fun m => m.fields.map (fun fd => fd.value), fun fd => fd.raw_value⟩

/-- State sitting at a correct 2-byte footer, for the C9 witness. -/
def wFooterSt : PState :=
  { rd := ⟨[0xAA, 0xBB], 0, 0xBBAA, 0, false, [], 0⟩
    accumulators := []
    complete := false
    compressed_ts_accumulator := .scalar (.num 0)
    local_mesgs := []
    messages := []
    dev_types := [] }

/-- Witness for `footer_crc_check`: with a matching footer the driver
completes. -/
theorem footer_crc_check_witness :
    ∃ st', parse_message envDefault 1 wFooterSt = .ok (Option.none, st') ∧
      st'.complete = true ∧ st'.rd.pos = wFooterSt.rd.pos + 2 :=
  (footer_crc_check envDefault 0 wFooterSt (by decide) rfl (by decide)
    (by decide)).2.2.1 (Or.inl (by decide))

/-! Structural lemmas about the per-entry field construction. -/

theorem process_components_shape (def_mesg : DefinitionMessage) (raws : List RVal)
    (raw : RVal) :
    ∀ (comps : List Component) (accs : List (Nat × List (Nat × Int)))
      (out : List FieldData × List (Nat × List (Nat × Int))),
      process_components def_mesg raws raw comps accs = .ok out →
      ∀ fd ∈ out.1, fd.field_def = Option.none := by
  intro comps
  induction comps with
  | nil =>
    intro accs out h fd hfd
    rw [process_components] at h
    simp at h
    rw [← h] at hfd
    simp at hfd
  | cons c rest ih =>
    intro accs out h fd hfd
    rw [process_components] at h
    split at h
    · exact absurd h (by simp)
    · split at h
      · exact absurd h (by simp)
      · split at h
        · exact absurd h (by simp)
        · split at h
          · exact absurd h (by simp)
          · rename_i heq
            simp at h
            rw [← h] at hfd
            simp at hfd
            rcases hfd with hfd | hfd
            · rw [hfd]
            · exact ih _ _ heq fd hfd

theorem process_entry_shape (def_mesg : DefinitionMessage) (raws : List RVal)
    (entry : FieldDefEntry) (raw : RVal) (accs : List (Nat × List (Nat × Int))) (ts : RVal)
    (out : (List FieldData × FieldData) × List (Nat × List (Nat × Int)) × RVal)
    (h : process_entry def_mesg raws entry raw accs ts = .ok out) :
    out.1.2.field_def = some entry ∧ out.1.2.raw_value = raw ∧
    (∀ fd ∈ out.1.1, fd.field_def = Option.none) ∧
    out.2.2 = (if entry.def_num = FIELD_TYPE_TIMESTAMP.props.def_num ∧ raw.isNone = false
      then raw else ts) := by
  obtain ⟨⟨ocmps, omain⟩, oaccs, ots⟩ := out
  rw [process_entry] at h
  split at h
  · simp at h
  · rename_i cmp_fds main accs' heq
    simp at h
    obtain ⟨⟨hc, hm⟩, ha, ht⟩ := h
    subst hc
    subst hm
    subst ht
    split at heq
    · rename_i field hfo
      split at heq
      · simp at heq
      · rename_i heq2
        simp at heq
        obtain ⟨h1, h2, h3⟩ := heq
        refine ⟨?_, ?_, ?_, rfl⟩
        · rw [← h2]
        · rw [← h2]
        · intro fd hfd
          simp at hfd
          rw [← h1] at hfd
          exact process_components_shape def_mesg raws raw _ _ _ heq2 fd hfd
    · simp at heq
      obtain ⟨h1, h2, h3⟩ := heq
      refine ⟨?_, ?_, ?_, rfl⟩
      · rw [← h2]
      · rw [← h2]
      · intro fd hfd
        simp [h1] at hfd

/-- The timestamp-field fold performed by step 4 of the per-entry loop
(line 504-506 of `base.py`). -/
def ts_fold (pairs : List (FieldDefEntry × RVal)) (ts : RVal) : RVal :=
  pairs.foldl
    (fun a p =>
      if p.1.def_num = FIELD_TYPE_TIMESTAMP.props.def_num ∧ p.2.isNone = false then p.2 else a)
    ts

theorem process_entries_shape (def_mesg : DefinitionMessage) (raws : List RVal) :
    ∀ (pairs : List (FieldDefEntry × RVal)) (accs : List (Nat × List (Nat × Int))) (ts : RVal)
      (out : List (List FieldData × FieldData) × List (Nat × List (Nat × Int)) × RVal),
      process_entries def_mesg raws pairs accs ts = .ok out →
      out.1.map (fun g => g.2.field_def) = pairs.map (fun p => some p.1) ∧
      out.1.map (fun g => g.2.raw_value) = pairs.map (fun p => p.2) ∧
      (∀ g ∈ out.1, ∀ fd ∈ g.1, fd.field_def = Option.none) ∧
      out.2.2 = ts_fold pairs ts := by
  intro pairs
  induction pairs with
  | nil =>
    intro accs ts out h
    rw [process_entries] at h
    simp at h
    rw [← h]
    simp [ts_fold]
  | cons p rest ih =>
    intro accs ts out h
    obtain ⟨entry, raw⟩ := p
    rw [process_entries] at h
    split at h
    · simp at h
    · rename_i group accs' ts' heq
      split at h
      · simp at h
      · rename_i groups accs'' ts'' heq2
        simp at h
        obtain ⟨hshape⟩ := True.intro
        have hone := process_entry_shape def_mesg raws entry raw accs ts _ heq
        have hrest := ih accs' ts' _ heq2
        dsimp only at hone hrest
        rw [← h]
        refine ⟨?_, ?_, ?_, ?_⟩
        · simp [hone.1, hrest.1]
        · simp [hone.2.1, hrest.2.1]
        · intro g hg fd hfd
          simp at hg
          rcases hg with hg | hg
          · rw [hg] at hfd
            exact hone.2.2.1 fd hfd
          · exact hrest.2.2.1 g hg fd hfd
        · simp [ts_fold] at hrest ⊢
          rw [hrest.2.2.2, hone.2.2.2]

/-- Inversion of a successful `_parse_data_message`: the installed
definition, the raw values, the per-entry groups, the optional
synthetic timestamp entry, and how message and state are assembled. -/
theorem parse_data_message_inv (env : FitEnv) (header : MessageHeader) (st : PState)
    (dm : DataMessage) (st' : PState)
    (h : parse_data_message env header st = .ok (dm, st')) :
    ∃ def_mesg raws rd' groups accs' ts' ts_fds ts'',
      lookupA header.local_mesg_num st.local_mesgs = some def_mesg ∧
      parse_raw_values def_mesg.endian def_mesg.entries st.rd = .ok (raws, rd') ∧
      process_entries def_mesg raws (def_mesg.entries.zip raws)
        st.accumulators st.compressed_ts_accumulator = .ok (groups, accs', ts') ∧
      ((header.time_offset = Option.none ∧ ts_fds = ([] : List FieldData) ∧ ts'' = ts') ∨
       (∃ off i, header.time_offset = some off ∧ ts' = .scalar (.num i) ∧
         ts_fds = [⟨Option.none, some FIELD_TYPE_TIMESTAMP.props, Option.none,
            field_render FIELD_TYPE_TIMESTAMP.props
              (.scalar (.num (apply_compressed_accumulation (off : Int) i 5))),
            .scalar (.num (apply_compressed_accumulation (off : Int) i 5))⟩] ∧
         ts'' = RVal.scalar (.num (apply_compressed_accumulation (off : Int) i 5)))) ∧
      dm = apply_message_processor env ⟨header, def_mesg,
        ((groups.map (fun g => g.1 ++ [g.2])).flatten ++ ts_fds).map
          (apply_field_processors env)⟩ ∧
      st' = { st with rd := rd', accumulators := accs', compressed_ts_accumulator := ts'' } := by
  rw [parse_data_message] at h
  split at h
  · simp at h
  · rename_i def_mesg hlk
    split at h
    · simp at h
    · rename_i raws rd' hraws
      split at h
      · simp at h
      · rename_i groups accs' ts' hproc
        split at h
        · rename_i off hoff
          split at h
          · rename_i i
            simp at h
            refine ⟨def_mesg, raws, rd', groups, accs', _, _, _,
              hlk, hraws, hproc, Or.inr ⟨off, i, hoff, rfl, rfl, rfl⟩, ?_, ?_⟩
            · rw [← h.1]
              simp
            · rw [← h.2]
          · simp at h
        · rename_i hoff
          simp at h
          refine ⟨def_mesg, raws, rd', groups, accs', ts', [], ts',
            hlk, hraws, hproc, Or.inl ⟨hoff, rfl, rfl⟩, ?_, ?_⟩
          · rw [← h.1]
            simp
          · rw [← h.2]

/-! Preservation facts: processor hooks only replace rendered values. -/

theorem apply_field_processors_field_def (env : FitEnv) (fd : FieldData) :
    (apply_field_processors env fd).field_def = fd.field_def := rfl

theorem apply_field_processors_raw_value (env : FitEnv) (fd : FieldData) :
    (apply_field_processors env fd).raw_value = fd.raw_value := rfl

theorem map_mapIdx_const {α β γ : Type} (l : List α) (f : Nat → α → β) (g : β → γ)
    (g' : α → γ) (h : ∀ i a, g (f i a) = g' a) : (l.mapIdx f).map g = l.map g' := by
  apply List.ext_getElem
  · simp
  · intro i h1 h2
    simp [h]

theorem apply_message_processor_map_field_def (env : FitEnv) (m : DataMessage) :
    (apply_message_processor env m).fields.map (fun fd => fd.field_def) =
      m.fields.map (fun fd => fd.field_def) := by
  unfold apply_message_processor
  exact map_mapIdx_const _ _ _ _ (fun i a => rfl)

theorem apply_message_processor_map_raw_value (env : FitEnv) (m : DataMessage) :
    (apply_message_processor env m).fields.map (fun fd => fd.raw_value) =
      m.fields.map (fun fd => fd.raw_value) := by
  unfold apply_message_processor
  exact map_mapIdx_const _ _ _ _ (fun i a => rfl)

theorem parse_raw_values_length (endian : Endian) :
    ∀ (entries : List FieldDefEntry) (rd : RState) (out : List RVal × RState),
      parse_raw_values endian entries rd = .ok out → out.1.length = entries.length := by
  intro entries
  induction entries with
  | nil =>
    intro rd out h
    rw [parse_raw_values] at h
    simp at h
    rw [← h]
    rfl
  | cons e rest ih =>
    intro rd out h
    rw [parse_raw_values] at h
    split at h
    · simp at h
    · split at h
      · simp at h
      · rename_i raws rd'' heq
        simp at h
        rw [← h]
        simp [ih _ _ heq]

/-- Component-count decomposition of the flattened groups. -/
theorem groups_flatten_shape :
    ∀ (groups : List (List FieldData × FieldData)) (entries : List FieldDefEntry),
      groups.map (fun g => g.2.field_def) = entries.map some →
      (∀ g ∈ groups, ∀ fd ∈ g.1, fd.field_def = Option.none) →
      ((groups.map (fun g => g.1 ++ [g.2])).flatten).map (fun fd => fd.field_def) =
        ((entries.zip (groups.map (fun g => g.1.length))).map
          (fun p => List.replicate p.2 (Option.none : Option FieldDefEntry) ++ [some p.1])).flatten := by
  intro groups
  induction groups with
  | nil =>
    intro entries h1 h2
    cases entries with
    | nil => simp
    | cons e es => simp at h1
  | cons g gs ih =>
    intro entries h1 h2
    cases entries with
    | nil => simp at h1
    | cons e es =>
      simp at h1
      have hmain := h1.1
      have hrest := h1.2
      have hcomps : ∀ fd ∈ g.1, fd.field_def = Option.none := h2 g (by simp)
      have hg : g.1.map (fun fd => fd.field_def) =
          List.replicate g.1.length (Option.none : Option FieldDefEntry) := by
        apply List.eq_replicate_iff.mpr
        constructor
        · simp
        · intro b hb
          obtain ⟨fd, hfd, hbe⟩ := List.mem_map.mp hb
          rw [← hbe]
          exact hcomps fd hfd
      simp only [List.map_cons, List.zip_cons_cons, List.flatten_cons, List.map_append, hg]
      rw [ih es hrest (fun g' hg' => h2 g' (by simp [hg']))]
      try simp [hmain]


theorem filterMap_id_shape {α : Type} :
    ∀ (l : List (α × Nat)),
      ((l.map (fun p => List.replicate p.2 (Option.none : Option α) ++ [some p.1])).flatten).filterMap
        id = l.map Prod.fst := by
  intro l
  induction l with
  | nil => simp
  | cons p rest ih =>
    simp [ih, List.filterMap_append]

/-- C7: shape of a decoded data message's field list.  For every data
message produced by `_parse_data_message`, `m.fields` contains exactly
one `FieldData` with `field_def` set for each entry of
`field_defs ++ dev_field_defs`, in definition order (witnessed by the
`filterMap` equation); each entry is preceded by its component-expansion
entries, all with `field_def = None` (the per-entry `replicate`-block
decomposition); and exactly one synthetic timestamp entry with
`field_def = None` is appended when and only when the record header is
the compressed-timestamp variant. -/
theorem data_message_fields_spec (env : FitEnv) (header : MessageHeader) (st : PState)
    (dm : DataMessage) (st' : PState)
    (h : parse_data_message env header st = .ok (dm, st')) :
    ∃ def_mesg ks,
      lookupA header.local_mesg_num st.local_mesgs = some def_mesg ∧
      dm.def_mesg = def_mesg ∧
      ks.length = def_mesg.entries.length ∧
      dm.fields.map (fun fd => fd.field_def) =
        ((def_mesg.entries.zip ks).map
          (fun p => List.replicate p.2 (Option.none : Option FieldDefEntry) ++ [some p.1])).flatten
          ++ (match header.time_offset with
              | some _ => [(Option.none : Option FieldDefEntry)]
              | Option.none => []) ∧
      dm.fields.filterMap (fun fd => fd.field_def) = def_mesg.entries := by
  obtain ⟨def_mesg, raws, rd', groups, accs', ts', ts_fds, ts'', hlk, hraws, hproc, hts,
    hdm, hst⟩ := parse_data_message_inv env header st dm st' h
  have hsh := process_entries_shape def_mesg raws _ _ _ _ hproc
  dsimp only at hsh
  have hlen_r : raws.length = def_mesg.entries.length :=
    parse_raw_values_length def_mesg.endian def_mesg.entries st.rd _ hraws
  have hfst : (def_mesg.entries.zip raws).map (fun p => some p.1) =
      def_mesg.entries.map some := by
    have hz := List.map_fst_zip def_mesg.entries raws (le_of_eq hlen_r.symm)
    calc (def_mesg.entries.zip raws).map (fun p => some p.1)
        = ((def_mesg.entries.zip raws).map Prod.fst).map some := by
          rw [List.map_map]
          rfl
      _ = def_mesg.entries.map some := by rw [hz]
  have hmap_groups : groups.map (fun g => g.2.field_def) = def_mesg.entries.map some :=
    hsh.1.trans hfst
  have hmapped : dm.fields.map (fun fd => fd.field_def) =
      ((groups.map (fun g => g.1 ++ [g.2])).flatten).map (fun fd => fd.field_def) ++
        ts_fds.map (fun fd => fd.field_def) := by
    rw [hdm, apply_message_processor_map_field_def]
    dsimp only
    rw [List.map_map]
    have : ((fun fd => fd.field_def) ∘ apply_field_processors env) =
        (fun fd : FieldData => fd.field_def) := rfl
    rw [this, List.map_append]
  have hts_map : ts_fds.map (fun fd => fd.field_def) =
      (match header.time_offset with
       | some _ => [(Option.none : Option FieldDefEntry)]
       | Option.none => []) := by
    rcases hts with ⟨hoff, hfds, _⟩ | ⟨off, i, hoff, _, hfds, _⟩
    · rw [hoff, hfds]
      rfl
    · rw [hoff, hfds]
      rfl
  refine ⟨def_mesg, groups.map (fun g => g.1.length), hlk, by rw [hdm]; rfl, ?_, ?_, ?_⟩
  · have := congrArg List.length hmap_groups
    simp at this
    simp [this]
  · rw [hmapped, hts_map, groups_flatten_shape groups def_mesg.entries hmap_groups hsh.2.2.1]
  · have hfm : dm.fields.filterMap (fun fd => fd.field_def) =
        (dm.fields.map (fun fd => fd.field_def)).filterMap id := by
      rw [List.filterMap_map]
      rfl
    rw [hfm, hmapped, hts_map,
      groups_flatten_shape groups def_mesg.entries hmap_groups hsh.2.2.1,
      List.filterMap_append, filterMap_id_shape]
    have hz := List.map_fst_zip def_mesg.entries (groups.map (fun g => g.1.length)) (by
      have := congrArg List.length hmap_groups
      simp at this
      simp [this])
    rw [hz]
    rcases hoff : header.time_offset <;> simp

/-- Concrete decode for the C5/C7 witnesses: a one-field definition
(uint8, def_num 1), a compressed-timestamp record header, and a prior
accumulator of `0x3FFFFFF8`. -/
def wDefMesg : DefinitionMessage :=
  ⟨⟨true, false, 1, Option.none⟩, .little, Option.none, 0,
    [⟨Option.none, 1, ⟨"uint8", 0x02, 1, false, 0xFF⟩, 1⟩], []⟩

def wDataSt : PState :=
  { rd := ⟨[0x07], 0, 0, 5, false, [], 0⟩
    accumulators := []
    complete := false
    compressed_ts_accumulator := .scalar (.num 0x3FFFFFF8)
    local_mesgs := [(1, wDefMesg)]
    messages := []
    dev_types := [] }

def wDataHeader : MessageHeader := ⟨false, false, 1, some 5⟩

/-- Witness for `data_message_fields_spec` on a concrete compressed
record: one field entry plus the synthetic timestamp entry. -/
theorem data_message_fields_spec_witness :
    ∃ dm st', parse_data_message envDefault wDataHeader wDataSt = .ok (dm, st') ∧
      dm.fields.filterMap (fun fd => fd.field_def) = dm.def_mesg.entries := by
  have hsome : (parse_data_message envDefault wDataHeader wDataSt).toOption.isSome = true := by
    decide
  match hev : parse_data_message envDefault wDataHeader wDataSt with
  | .error e =>
    rw [hev] at hsome
    simp [Except.toOption] at hsome
  | .ok (dm, st') =>
    obtain ⟨d2, ks, hlk, hdm, _, hmap, hfm⟩ :=
      data_message_fields_spec envDefault wDataHeader wDataSt dm st' hev
    exact ⟨dm, st', rfl, by rw [hfm, hdm]⟩

/-- C5: compressed-timestamp state.  (a) The per-entry loop updates the
rolling accumulator with the raw value of every
field-definition/raw-value pair whose def_num equals the timestamp
field's def_num and whose raw value is not none — the first conjunct
shows the per-pair assignment, the inversion below shows the loop's
final accumulator is exactly that fold.  (b) When the record header is
the compressed-timestamp variant, after per-field processing exactly one
synthetic timestamp `FieldData` with `field_def = None` is appended,
whose raw value is `accumulate_bits(time_offset, accumulator, 5)`, and
that value is stored back into the accumulator. -/
theorem compressed_timestamp_state_spec (env : FitEnv) (header : MessageHeader)
    (st : PState) (dm : DataMessage) (st' : PState)
    (h : parse_data_message env header st = .ok (dm, st')) :
    (∀ (p : FieldDefEntry × RVal) (pairs : List (FieldDefEntry × RVal)) (ts0 : RVal),
      ts_fold (p :: pairs) ts0 =
        ts_fold pairs
          (if p.1.def_num = FIELD_TYPE_TIMESTAMP.props.def_num ∧ p.2.isNone = false
           then p.2 else ts0)) ∧
    ∃ def_mesg raws rd',
      lookupA header.local_mesg_num st.local_mesgs = some def_mesg ∧
      parse_raw_values def_mesg.endian def_mesg.entries st.rd = .ok (raws, rd') ∧
      (header.time_offset = Option.none →
        st'.compressed_ts_accumulator =
          ts_fold (def_mesg.entries.zip raws) st.compressed_ts_accumulator) ∧
      (∀ off, header.time_offset = some off →
        ∃ i, ts_fold (def_mesg.entries.zip raws) st.compressed_ts_accumulator =
            RVal.scalar (.num i) ∧
          st'.compressed_ts_accumulator =
            RVal.scalar (.num (apply_compressed_accumulation (off : Int) i 5)) ∧
          ∃ l tsfd, dm.fields = l ++ [tsfd] ∧ tsfd.field_def = Option.none ∧
            tsfd.raw_value =
              RVal.scalar (.num (apply_compressed_accumulation (off : Int) i 5)) ∧
            l.length = (dm.fields.length - 1)) := by
  refine ⟨fun p pairs ts0 => rfl, ?_⟩
  obtain ⟨def_mesg, raws, rd', groups, accs', ts', ts_fds, ts'', hlk, hraws, hproc, hts,
    hdm, hst⟩ := parse_data_message_inv env header st dm st' h
  have hsh := process_entries_shape def_mesg raws _ _ _ _ hproc
  dsimp only at hsh
  have hfold := hsh.2.2.2
  refine ⟨def_mesg, raws, rd', hlk, hraws, ?_, ?_⟩
  · intro hoff
    rcases hts with ⟨_, _, hts''⟩ | ⟨off, i, hoff2, _, _, _⟩
    · rw [hst]
      dsimp only
      rw [hts'', ← hfold]
    · rw [hoff] at hoff2
      exact absurd hoff2 (by simp)
  · intro off hoff
    rcases hts with ⟨hoff2, _, _⟩ | ⟨off2, i, hoff2, hts', hfds, hts''⟩
    · rw [hoff] at hoff2
      exact absurd hoff2 (by simp)
    · rw [hoff] at hoff2
      have hoffeq : off2 = off := by
        injection hoff2 with he
        rw [he]
      subst hoffeq
      refine ⟨i, by rw [← hfold, hts'], by rw [hst]; dsimp only; rw [hts''], ?_⟩
      rw [hdm]
      unfold apply_message_processor
      dsimp only
      rw [hfds]
      simp only [List.map_append, List.map_cons, List.map_nil, List.mapIdx_concat]
      refine ⟨_, _, rfl, rfl, rfl, ?_⟩
      simp

/-- Witness for `compressed_timestamp_state_spec`: the spec's scenario —
prior accumulator `0x3FFFFFF8`, compressed header with offset 5 —
produces the stored-back timestamp `0x40000005`. -/
theorem compressed_timestamp_state_spec_witness :
    ∃ dm st', parse_data_message envDefault wDataHeader wDataSt = .ok (dm, st') ∧
      st'.compressed_ts_accumulator = RVal.scalar (.num 0x40000005) := by
  have hsome : (parse_data_message envDefault wDataHeader wDataSt).toOption.isSome = true := by
    decide
  match hev : parse_data_message envDefault wDataHeader wDataSt with
  | .error e =>
    rw [hev] at hsome
    simp [Except.toOption] at hsome
  | .ok (dm, st') =>
    obtain ⟨hper, def_mesg, raws, rd', hlk, hraws, hnone, hsome5⟩ :=
      compressed_timestamp_state_spec envDefault wDataHeader wDataSt dm st' hev
    obtain ⟨i, hfold, hacc, _⟩ := hsome5 5 rfl
    have hdme : def_mesg = wDefMesg := by
      have hlk2 : lookupA wDataHeader.local_mesg_num wDataSt.local_mesgs = some wDefMesg := rfl
      rw [hlk2] at hlk
      injection hlk with he
      rw [he]
    subst hdme
    have hr2 : parse_raw_values wDefMesg.endian wDefMesg.entries wDataSt.rd =
        .ok ([RVal.scalar (.num 7)], (read_bytes 1 wDataSt.rd).2) := by rfl
    have hp := hraws.symm.trans hr2
    injection hp with hp2
    have hraws_eq : raws = [RVal.scalar (.num 7)] := congrArg Prod.fst hp2
    rw [hraws_eq] at hfold
    have hfold2 : ts_fold (wDefMesg.entries.zip [RVal.scalar (.num 7)])
        wDataSt.compressed_ts_accumulator = RVal.scalar (.num 0x3FFFFFF8) := by decide
    rw [hfold2] at hfold
    injection hfold with hsv
    injection hsv with hi
    rw [← hi] at hacc
    have : apply_compressed_accumulation ((5 : Nat) : Int) 0x3FFFFFF8 5 = 0x40000005 := by decide
    rw [this] at hacc
    exact ⟨dm, st', rfl, hacc⟩

/-! Error-taxonomy lemmas: which functions can raise which errors. -/

theorem read_struct_bytes_invalid_iff (size : Nat) (st : RState) :
    read_struct_bytes size st = .error .invalidStructError ↔ size = 0 := by
  unfold read_struct_bytes
  constructor
  · intro h
    by_cases hs : size = 0
    · exact hs
    · rw [if_neg hs] at h
      split at h
      · split at h <;> simp at h
      · simp at h
  · intro hs
    rw [if_pos hs]

theorem read_struct_bytes_error (size : Nat) (st : RState) (e : Err)
    (h : read_struct_bytes size st = .error e) (hp : e.isParseError = true) :
    e = .invalidStructError ∧ size = 0 := by
  unfold read_struct_bytes at h
  by_cases hs : size = 0
  · rw [if_pos hs] at h
    simp at h
    exact ⟨h.symm, hs⟩
  · rw [if_neg hs] at h
    split at h
    · split at h
      · simp at h
      · simp at h
        rw [← h] at hp
        simp [Err.isParseError] at hp
    · simp at h
      rw [← h] at hp
      simp [Err.isParseError] at hp

theorem read_and_assert_crc_error (c az : Bool) (st : RState) (e : Err)
    (h : read_and_assert_crc c az st = .error e) : e.isParseError = false := by
  unfold read_and_assert_crc at h
  split at h
  · rename_i e2 heq
    simp at h
    rw [← h]
    have := read_struct_bytes_error 2 st e2 heq
    by_cases hp : e2.isParseError = true
    · obtain ⟨_, h0⟩ := this hp
      simp at h0
    · simpa using hp
  · dsimp only at h
    split at h
    · split at h <;> simp at h
      rw [← h]
      rfl
    · simp at h

theorem check_struct_bytes_error (size : Nat) (data : List Nat) (e : Err)
    (h : check_struct_bytes size data = .error e) (hp : e.isParseError = true) :
    e = .invalidStructError ∧ size = 0 := by
  unfold check_struct_bytes at h
  by_cases hs : size = 0
  · rw [if_pos hs] at h
    simp at h
    exact ⟨h.symm, hs⟩
  · rw [if_neg hs] at h
    split at h
    · simp at h
    · simp at h
      rw [← h] at hp
      simp [Err.isParseError] at hp

theorem parse_file_header_error (c : Bool) (st : PState) (e : Err)
    (h : parse_file_header c st = .error e) : e.isParseError = false := by
  unfold parse_file_header at h
  dsimp only at h
  split at h
  · simp at h
    rw [← h]
    rfl
  · split at h
    · rename_i e2 heq
      simp at h
      rw [← h]
      by_cases hp : e2.isParseError = true
      · obtain ⟨_, h0⟩ := check_struct_bytes_error 12 _ e2 heq hp
        simp at h0
      · simpa using hp
    · split at h
      · split at h
        · simp at h
          rw [← h]
          rfl
        · split at h
          · rename_i e2 heq
            simp at h
            rw [← h]
            exact read_and_assert_crc_error c true _ e2 heq
          · simp at h
      · simp at h

theorem parse_message_header_error (st : RState) (e : Err)
    (h : parse_message_header st = .error e) : e.isParseError = false := by
  unfold parse_message_header at h
  split at h
  · rename_i e2 heq
    simp at h
    rw [← h]
    have := read_struct_bytes_error 1 st e2 heq
    by_cases hp : e2.isParseError = true
    · obtain ⟨_, h0⟩ := this hp
      simp at h0
    · simpa using hp
  · dsimp only at h
    split at h <;> simp at h

/-- Completeness for the definition-field loop: a `FitParseError` out of
it is a field-size violation `size % base_type.size ≠ 0`. -/
theorem parse_field_defs_error (mt : Option MessageType) (endian : Endian) (g : Nat) :
    ∀ (n : Nat) (rd : RState) (accs : List (Nat × List (Nat × Int))) (e : Err),
      parse_field_defs mt endian g n rd accs = .error e → e.isParseError = true →
      ∃ s b, e = .fieldSizeError s b ∧ s % b ≠ 0 := by
  intro n
  induction n with
  | zero =>
    intro rd accs e h hp
    rw [parse_field_defs] at h
    simp at h
  | succ n ih =>
    intro rd accs e h hp
    rw [parse_field_defs] at h
    split at h
    · rename_i e2 heq
      simp at h
      rw [← h] at hp
      obtain ⟨_, h0⟩ := read_struct_bytes_error 3 rd e2 heq (h ▸ hp)
      simp at h0
    · dsimp only at h
      split at h
      · rename_i hmod
        simp at h
        exact ⟨_, _, h.symm, by simpa using hmod⟩
      · split at h
        · rename_i e2 heq
          simp at h
          rw [← h]
          exact ih _ _ e2 heq (by rw [h]; exact hp)
        · simp at h

/-- Soundness for the definition-field loop: a triple whose size is not
a multiple of the resolved base type's size raises exactly the
field-size `FitParseError`. -/
theorem parse_field_defs_bad_size (mt : Option MessageType) (endian : Endian) (g : Nat)
    (n : Nat) (rd : RState) (accs : List (Nat × List (Nat × Int)))
    (d s btn : Nat) (rd' : RState)
    (hread : read_struct_bytes 3 rd = .ok ([d, s, btn], rd'))
    (hmod : s % ((BASE_TYPES btn).getD BASE_TYPE_BYTE).size ≠ 0) :
    parse_field_defs mt endian g (n + 1) rd accs =
      .error (.fieldSizeError s ((BASE_TYPES btn).getD BASE_TYPE_BYTE).size) := by
  rw [parse_field_defs, hread]
  dsimp only
  rw [if_pos (by simpa using hmod)]
  rfl

theorem parse_dev_field_defs_error (reg : List ((Nat × Nat) × DevField)) :
    ∀ (n : Nat) (rd : RState) (e : Err),
      parse_dev_field_defs reg n rd = .error e → e.isParseError = false := by
  intro n
  induction n with
  | zero =>
    intro rd e h
    rw [parse_dev_field_defs] at h
    simp at h
  | succ n ih =>
    intro rd e h
    rw [parse_dev_field_defs] at h
    split at h
    · rename_i e2 heq
      simp at h
      rw [← h]
      by_cases hp : e2.isParseError = true
      · obtain ⟨_, h0⟩ := read_struct_bytes_error 3 rd e2 heq hp
        simp at h0
      · simpa using hp
    · dsimp only at h
      split at h
      · rename_i e2 heq
        simp at h
        rw [← h]
        exact ih _ e2 heq
      · simp at h

theorem parse_definition_message_error (env : FitEnv) (header : MessageHeader)
    (st : PState) (e : Err)
    (h : parse_definition_message env header st = .error e) (hp : e.isParseError = true) :
    ∃ s b, e = .fieldSizeError s b ∧ s % b ≠ 0 := by
  unfold parse_definition_message at h
  split at h
  · rename_i e2 heq
    simp at h
    obtain ⟨_, h0⟩ := read_struct_bytes_error 2 st.rd e2 heq (h ▸ hp)
    simp at h0
  · dsimp only at h
    split at h
    · rename_i e2 heq
      simp at h
      obtain ⟨_, h0⟩ := read_struct_bytes_error 3 _ e2 heq (h ▸ hp)
      simp at h0
    · try dsimp only at h
      split at h
      · rename_i e2 heq
        simp at h
        rw [← h]
        exact parse_field_defs_error _ _ _ _ _ _ e2 heq (by rw [h]; exact hp)
      · split at h
        · rename_i e2 heq2
          simp at h
          rw [h] at heq2
          split at heq2
          · split at heq2
            · rename_i e3 heq3
              simp at heq2
              obtain ⟨_, h0⟩ := read_struct_bytes_error 1 _ e3 heq3 (heq2 ▸ hp)
              simp at h0
            · have h5 := parse_dev_field_defs_error _ _ _ _ heq2
              rw [hp] at h5
              simp at h5
          · simp at heq2
        · simp at h

theorem baseType_error (entry : FieldDefEntry) (e : Err)
    (h : entry.baseType = .error e) : e.isParseError = false := by
  cases entry with
  | norm fd => simp [FieldDefEntry.baseType] at h
  | dev dd =>
    cases hf : dd.field with
    | none =>
      simp [FieldDefEntry.baseType, hf] at h
      rw [← h]
      rfl
    | some f => simp [FieldDefEntry.baseType, hf] at h

theorem parse_one_raw_error (endian : Endian) (entry : FieldDefEntry) (rd : RState)
    (e : Err) (h : parse_one_raw endian entry rd = .error e) (hp : e.isParseError = true) :
    e = .invalidStructError ∧
      ∃ bt, entry.baseType = .ok bt ∧ entry.size / bt.size * bt.size = 0 := by
  unfold parse_one_raw at h
  split at h
  · rename_i e2 heq
    simp at h
    rw [← h] at hp
    have := baseType_error entry e2 heq
    rw [this] at hp
    simp at hp
  · rename_i bt heq
    dsimp only at h
    split at h
    · rename_i e2 heq2
      simp at h
      rw [← h] at hp ⊢
      obtain ⟨he, h0⟩ := read_struct_bytes_error _ _ e2 heq2 hp
      exact ⟨he, bt, heq, h0⟩
    · simp at h

theorem parse_one_raw_zero_size (endian : Endian) (entry : FieldDefEntry) (rd : RState)
    (bt : BaseType) (hbt : entry.baseType = .ok bt)
    (hz : entry.size / bt.size * bt.size = 0) :
    parse_one_raw endian entry rd = .error .invalidStructError := by
  unfold parse_one_raw
  rw [hbt]
  dsimp only
  rw [hz, (read_struct_bytes_invalid_iff 0 rd).mpr rfl]

theorem parse_raw_values_error (endian : Endian) :
    ∀ (entries : List FieldDefEntry) (rd : RState) (e : Err),
      parse_raw_values endian entries rd = .error e → e.isParseError = true →
      e = .invalidStructError ∧
        ∃ entry ∈ entries, ∃ bt, entry.baseType = .ok bt ∧
          entry.size / bt.size * bt.size = 0 := by
  intro entries
  induction entries with
  | nil =>
    intro rd e h hp
    rw [parse_raw_values] at h
    simp at h
  | cons entry rest ih =>
    intro rd e h hp
    rw [parse_raw_values] at h
    split at h
    · rename_i e2 heq
      simp at h
      rw [← h] at hp ⊢
      obtain ⟨he, bt, hbt, h0⟩ := parse_one_raw_error endian entry rd e2 heq hp
      exact ⟨he, entry, by simp, bt, hbt, h0⟩
    · split at h
      · rename_i e2 heq2
        simp at h
        rw [← h] at hp ⊢
        obtain ⟨he, entry2, hm, bt, hbt, h0⟩ := ih _ e2 heq2 hp
        exact ⟨he, entry2, by simp [hm], bt, hbt, h0⟩
      · simp at h

theorem process_components_error (def_mesg : DefinitionMessage) (raws : List RVal)
    (raw : RVal) :
    ∀ (comps : List Component) (accs : List (Nat × List (Nat × Int))) (e : Err),
      process_components def_mesg raws raw comps accs = .error e →
      e.isParseError = false := by
  intro comps
  induction comps with
  | nil =>
    intro accs e h
    rw [process_components] at h
    simp at h
  | cons c rest ih =>
    intro accs e h
    rw [process_components] at h
    split at h
    · rename_i e2 heq
      simp at h
      rw [← h]
      dsimp only at heq
      split at heq
      · split at heq
        · split at heq
          · simp at heq
            rw [← heq]
            rfl
          · split at heq
            · simp at heq
              rw [← heq]
              rfl
            · simp at heq
        · simp at heq
      · simp at heq
    · split at h
      · simp at h
        rw [← h]
        rfl
      · split at h
        · simp at h
          rw [← h]
          rfl
        · split at h
          · rename_i e2 heq
            simp at h
            rw [← h]
            exact ih _ e2 heq
          · simp at h

theorem process_entry_error (def_mesg : DefinitionMessage) (raws : List RVal)
    (entry : FieldDefEntry) (raw : RVal) (accs : List (Nat × List (Nat × Int))) (ts : RVal)
    (e : Err) (h : process_entry def_mesg raws entry raw accs ts = .error e) :
    e.isParseError = false := by
  rw [process_entry] at h
  split at h
  · rename_i e2 heq
    simp at h
    rw [← h]
    split at heq
    · split at heq
      · rename_i e3 heq2
        simp at heq
        rw [← heq]
        exact process_components_error def_mesg raws raw _ _ e3 heq2
      · simp at heq
    · simp at heq
  · simp at h

theorem process_entries_error (def_mesg : DefinitionMessage) (raws : List RVal) :
    ∀ (pairs : List (FieldDefEntry × RVal)) (accs : List (Nat × List (Nat × Int)))
      (ts : RVal) (e : Err),
      process_entries def_mesg raws pairs accs ts = .error e → e.isParseError = false := by
  intro pairs
  induction pairs with
  | nil =>
    intro accs ts e h
    rw [process_entries] at h
    simp at h
  | cons p rest ih =>
    intro accs ts e h
    rw [process_entries] at h
    split at h
    · rename_i e2 heq
      simp at h
      rw [← h]
      exact process_entry_error def_mesg raws p.1 p.2 accs ts e2 heq
    · split at h
      · rename_i e2 heq
        simp at h
        rw [← h]
        exact ih _ _ e2 heq
      · simp at h

theorem parse_data_message_error (env : FitEnv) (header : MessageHeader) (st : PState)
    (e : Err) (h : parse_data_message env header st = .error e) (hp : e.isParseError = true) :
    (e = .invalidLocalMesgError header.local_mesg_num ∧
      lookupA header.local_mesg_num st.local_mesgs = Option.none) ∨
    (e = .invalidStructError ∧
      ∃ def_mesg, lookupA header.local_mesg_num st.local_mesgs = some def_mesg ∧
        ∃ entry ∈ def_mesg.entries, ∃ bt, entry.baseType = .ok bt ∧
          entry.size / bt.size * bt.size = 0) := by
  rw [parse_data_message] at h
  split at h
  · rename_i hlk
    simp at h
    exact Or.inl ⟨h.symm, hlk⟩
  · rename_i def_mesg hlk
    split at h
    · rename_i e2 heq
      simp at h
      rw [← h] at hp ⊢
      obtain ⟨he, entry, hm, bt, hbt, h0⟩ :=
        parse_raw_values_error def_mesg.endian _ _ e2 heq hp
      exact Or.inr ⟨he, def_mesg, hlk, entry, hm, bt, hbt, h0⟩
    · split at h
      · rename_i e2 heq
        simp at h
        rw [← h] at hp
        have := process_entries_error def_mesg _ _ _ _ e2 heq
        rw [this] at hp
        simp at hp
      · split at h
        · rename_i off hoff
          split at h
          · simp at h
          · simp at h
            rw [← h] at hp
            simp [Err.isParseError] at hp
        · simp at h

theorem parse_data_message_bad_local (env : FitEnv) (header : MessageHeader) (st : PState)
    (hlk : lookupA header.local_mesg_num st.local_mesgs = Option.none) :
    parse_data_message env header st =
      .error (.invalidLocalMesgError header.local_mesg_num) := by
  rw [parse_data_message, hlk]

theorem pack_vals_error (bt : BaseType) (endian : Endian) :
    ∀ (vals : List SVal) (e : Err), pack_vals bt endian vals = .error e →
      e.isParseError = false := by
  intro vals
  induction vals with
  | nil =>
    intro e h
    rw [pack_vals] at h
    simp at h
  | cons v rest ih =>
    intro e h
    rw [pack_vals] at h
    split at h
    · rename_i e2 heq
      simp at h
      rw [← h]
      unfold pack_one at heq
      split at heq
      · split at heq
        · simp at heq
        · simp at heq
          rw [← heq]
          rfl
      · simp at heq
        rw [← heq]
        rfl
    · split at h
      · rename_i e2 heq
        simp at h
        rw [← h]
        exact ih e2 heq
      · simp at h

theorem write_one_raw_invalid_iff (endian : Endian) (entry : FieldDefEntry) (raw : RVal)
    (rd : RState) :
    write_one_raw endian entry raw rd = .error .invalidStructError ↔
      ∃ bt, entry.baseType = .ok bt ∧ rd.hasOut = true ∧
        entry.size / bt.size * bt.size = 0 := by
  unfold write_one_raw
  constructor
  · intro h
    split at h
    · rename_i e2 heq
      simp at h
      have hb2 := baseType_error entry e2 heq
      rw [h] at hb2
      simp [Err.isParseError] at hb2
    · rename_i bt hbt
      dsimp only at h
      by_cases ho : rd.hasOut = false
      · rw [if_pos ho] at h
        exact absurd h (by simp)
      · rw [if_neg ho] at h
        simp only [Bool.not_eq_false] at ho
        by_cases hz : entry.size / bt.size * bt.size = 0
        · exact ⟨bt, hbt, ho, hz⟩
        · rw [if_neg hz] at h
          split at h
          · split at h
            · split at h
              · rename_i e2 heq
                injection h with h2
                rw [h2] at heq
                have := pack_vals_error bt endian _ _ heq
                simp [Err.isParseError] at this
              · exact absurd h (by simp)
            · injection h with h2
              exact absurd h2 (by decide)
          · split at h
            · split at h
              · rename_i e2 heq
                injection h with h2
                rw [h2] at heq
                have := pack_vals_error bt endian _ _ heq
                simp [Err.isParseError] at this
              · exact absurd h (by simp)
            · injection h with h2
              exact absurd h2 (by decide)
  · intro hex
    obtain ⟨bt, hbt, ho, hz⟩ := hex
    rw [hbt]
    dsimp only
    rw [ho]
    rw [if_neg (by simp), if_pos hz]

theorem write_one_raw_error (endian : Endian) (entry : FieldDefEntry) (raw : RVal)
    (rd : RState) (e : Err) (h : write_one_raw endian entry raw rd = .error e)
    (hp : e.isParseError = true) : e = .invalidStructError := by
  unfold write_one_raw at h
  split at h
  · rename_i e2 heq
    simp at h
    rw [← h] at hp
    have := baseType_error entry e2 heq
    rw [this] at hp
    simp at hp
  · dsimp only at h
    split at h
    · exact absurd h (by simp)
    · split at h
      · simp at h
        exact h.symm
      · split at h
        · split at h
          · split at h
            · rename_i e2 heq
              injection h with h2
              rw [← h2] at hp
              have := pack_vals_error _ _ _ _ heq
              rw [this] at hp
              simp at hp
            · exact absurd h (by simp)
          · injection h with h2
            rw [← h2] at hp
            simp [Err.isParseError] at hp
        · split at h
          · split at h
            · rename_i e2 heq
              injection h with h2
              rw [← h2] at hp
              have := pack_vals_error _ _ _ _ heq
              rw [this] at hp
              simp at hp
            · exact absurd h (by simp)
          · injection h with h2
            rw [← h2] at hp
            simp [Err.isParseError] at hp

theorem write_raw_values_error (endian : Endian) :
    ∀ (pairs : List (FieldDefEntry × RVal)) (rd : RState) (e : Err),
      write_raw_values endian pairs rd = .error e → e.isParseError = true →
      e = .invalidStructError := by
  intro pairs
  induction pairs with
  | nil =>
    intro rd e h hp
    rw [write_raw_values] at h
    simp at h
  | cons p rest ih =>
    intro rd e h hp
    rw [write_raw_values] at h
    split at h
    · rename_i e2 heq
      simp at h
      rw [← h] at hp ⊢
      exact write_one_raw_error endian p.1 p.2 rd e2 heq hp
    · rename_i rd' heq
      exact ih rd' e h hp

theorem write_data_message_error (msg : DataMessage) (rd : RState) (e : Err)
    (h : write_data_message msg rd = .error e) (hp : e.isParseError = true) :
    e = .invalidStructError := by
  unfold write_data_message at h
  exact write_raw_values_error _ _ _ _ h hp

/-- Top-level completeness: any `FitParseError` out of one
`_parse_message` step has one of the three taxonomy shapes. -/
theorem parse_message_error_taxonomy (env : FitEnv) :
    ∀ (fuel : Nat) (st : PState) (e : Err),
      parse_message env fuel st = .error e → e.isParseError = true →
      e = .invalidStructError ∨
        (∃ s b, e = .fieldSizeError s b ∧ s % b ≠ 0) ∨
        (∃ n, e = .invalidLocalMesgError n) := by
  intro fuel
  induction fuel with
  | zero =>
    intro st e h hp
    rw [parse_message] at h
    simp at h
    rw [← h] at hp
    simp [Err.isParseError] at hp
  | succ fuel ih =>
    intro st e h hp
    rw [parse_message] at h
    split at h
    · dsimp only at h
      split at h
      · rename_i e2 heq
        simp at h
        rw [← h] at hp
        split at heq
        · split at heq
          · rename_i e3 heq2
            simp at heq
            have := read_and_assert_crc_error env.check_crc false st.rd e3 heq2
            rw [← heq, this] at hp
            simp at hp
          · simp at heq
        · simp at heq
      · split at h
        · simp at h
        · split at h
          · rename_i e2 heq
            simp at h
            have := parse_file_header_error env.check_crc _ e2 heq
            rw [← h, this] at hp
            simp at hp
          · exact ih _ e h hp
    · split at h
      · rename_i e2 heq
        simp at h
        have := parse_message_header_error st.rd e2 heq
        rw [← h, this] at hp
        simp at hp
      · dsimp only at h
        split at h
        · split at h
          · rename_i e2 heq
            simp at h
            rw [← h] at hp ⊢
            obtain ⟨s, b, he, hm⟩ := parse_definition_message_error env _ _ e2 heq hp
            exact Or.inr (Or.inl ⟨s, b, he, hm⟩)
          · simp at h
        · split at h
          · rename_i e2 heq
            simp at h
            rw [← h] at hp ⊢
            rcases parse_data_message_error env _ _ e2 heq hp with ⟨he, _⟩ | ⟨he, _⟩
            · exact Or.inr (Or.inr ⟨_, he⟩)
            · exact Or.inl he
          · split at h
            · rename_i e2 heq
              simp at h
              rw [← h] at hp ⊢
              exact Or.inl (write_data_message_error _ _ e2 heq hp)
            · simp at h

/-- Fatality: an error out of `_parse_message` aborts `FitFile.parse`
with the same error. -/
theorem parse_all_fatal (env : FitEnv) (fuel : Nat) (st : PState) (e : Err)
    (h : parse_message env (fuel + 1) st = .error e) :
    parse_all env (fuel + 1) st = .error e := by
  rw [parse_all, h]

/-- C6: `FitParseError` when-and-only-when taxonomy.  (1) `_read_struct`
raises the zero-size struct error exactly when the computed size is 0;
(2) `_write_struct` (through the per-field writer) raises it exactly
when a sink is attached and the field's struct size `size / base * base`
is 0; (3) a definition field triple whose size is not a multiple of its
resolved base type's size raises the field-size error; (4) a data
record whose header carries a `local_mesg_num` with no installed
definition raises the invalid-local-message error; (5) completeness:
every `FitParseError` out of `_parse_message` has one of these three
shapes; (6) fatality: the error aborts `FitFile.parse` unchanged. -/
theorem fit_parse_error_spec :
    (∀ (size : Nat) (st : RState),
        read_struct_bytes size st = .error .invalidStructError ↔ size = 0) ∧
    (∀ (endian : Endian) (entry : FieldDefEntry) (raw : RVal) (rd : RState),
        write_one_raw endian entry raw rd = .error .invalidStructError ↔
          ∃ bt, entry.baseType = .ok bt ∧ rd.hasOut = true ∧
            entry.size / bt.size * bt.size = 0) ∧
    (∀ (mt : Option MessageType) (endian : Endian) (g n : Nat) (rd : RState)
        (accs : List (Nat × List (Nat × Int))) (d s btn : Nat) (rd' : RState),
        read_struct_bytes 3 rd = .ok ([d, s, btn], rd') →
        s % ((BASE_TYPES btn).getD BASE_TYPE_BYTE).size ≠ 0 →
        parse_field_defs mt endian g (n + 1) rd accs =
          .error (.fieldSizeError s ((BASE_TYPES btn).getD BASE_TYPE_BYTE).size)) ∧
    (∀ (env : FitEnv) (header : MessageHeader) (st : PState),
        lookupA header.local_mesg_num st.local_mesgs = Option.none →
        parse_data_message env header st =
          .error (.invalidLocalMesgError header.local_mesg_num)) ∧
    (∀ (env : FitEnv) (fuel : Nat) (st : PState) (e : Err),
        parse_message env fuel st = .error e → e.isParseError = true →
        e = .invalidStructError ∨
          (∃ s b, e = .fieldSizeError s b ∧ s % b ≠ 0) ∨
          (∃ n, e = .invalidLocalMesgError n)) ∧
    (∀ (env : FitEnv) (fuel : Nat) (st : PState) (e : Err),
        parse_message env (fuel + 1) st = .error e →
        parse_all env (fuel + 1) st = .error e) :=
  ⟨read_struct_bytes_invalid_iff, write_one_raw_invalid_iff,
   parse_field_defs_bad_size, parse_data_message_bad_local,
   parse_message_error_taxonomy, parse_all_fatal⟩

/-- Reader state for the C6 witness: a sink is attached and three
definition-field-triple bytes declaring a `uint16` field of size 1 are
next. -/
def wErrRd : RState := ⟨[0, 1, 0x84], 0, 0, 100, true, [], 0⟩

/-- A field-definition entry of size 1 over the 2-byte `uint16` base
type, for the C6 witness. -/
def wErrEntry : FieldDefEntry :=
  .norm ⟨Option.none, 0, (BASE_TYPES 0x84).getD BASE_TYPE_BYTE, 1⟩

/-- Parser state for the C6 witness: one pending data-record header byte
referencing local message type 3 with no installed definitions. -/
def wErrSt : PState :=
  { rd := ⟨[0x03], 0, 0, 1, false, [], 0⟩
    accumulators := []
    complete := false
    compressed_ts_accumulator := .scalar (.num 0)
    local_mesgs := []
    messages := []
    dev_types := [] }

/-! Rewrite round-trip of definition records. -/

/-- The base-type registry is identifier-consistent: a known id resolves
to a base type carrying that id. -/
theorem BASE_TYPES_identifier (n : Nat) (bt : BaseType) (h : BASE_TYPES n = some bt) :
    bt.identifier = n := by
  unfold BASE_TYPES at h
  split at h <;> simp_all <;> rw [← h]

/-- Success characterization of `_read_struct`: the data is the
next-`size` slice of the file and the cursor advances by `size`; the
write side is untouched. -/
theorem read_struct_bytes_ok (size : Nat) (st : RState) (data : List Nat) (st' : RState)
    (h : read_struct_bytes size st = .ok (data, st')) :
    data = (st.file.drop st.pos).take size ∧ data.length = size ∧
      st'.file = st.file ∧ st'.pos = st.pos + size ∧ st'.hasOut = st.hasOut ∧
      st'.out = st.out := by
  unfold read_struct_bytes at h
  by_cases hs : size = 0
  · rw [if_pos hs] at h
    simp at h
  · rw [if_neg hs] at h
    unfold read_bytes at h
    rw [if_neg (by omega : ¬ ((size : Nat) : Int) ≤ 0)] at h
    dsimp only at h
    split at h
    · rename_i hlen
      simp only [Except.ok.injEq, Prod.mk.injEq] at h
      obtain ⟨h1, h2⟩ := h
      subst h1 h2
      simp only [Int.toNat_natCast] at hlen ⊢
      simp [hlen]
    · simp at h

/-- `_write_struct` with a sink appends exactly the packed bytes. -/
theorem write_struct_bytes_out_append (p : List Nat) (st : RState)
    (hout : st.hasOut = true) (hp : p ≠ []) :
    (write_struct_bytes p st).out = st.out ++ p := by
  unfold write_struct_bytes write_bytes
  rw [hout]
  simp [hp]

/-- Flat byte image of the field-definition triples written by
`_write_definition_message`. -/
def fieldDefsBytes (fds : List FieldDefinition) : List Nat :=
  (fds.map fieldDefTriple).flatten

theorem foldl_write_fieldDefTriples (fds : List FieldDefinition) :
    ∀ (st : RState), st.hasOut = true →
      ((fds.foldl (fun s fld => write_struct_bytes (fieldDefTriple fld) s) st).out
          = st.out ++ fieldDefsBytes fds ∧
        (fds.foldl (fun s fld => write_struct_bytes (fieldDefTriple fld) s) st).hasOut
          = true) := by
  induction fds with
  | nil =>
    intro st h
    exact ⟨by simp [fieldDefsBytes], h⟩
  | cons fd rest ih =>
    intro st h
    simp only [List.foldl_cons]
    obtain ⟨h1, h2⟩ := ih (write_struct_bytes (fieldDefTriple fd) st) (by simp [h])
    refine ⟨?_, h2⟩
    rw [h1, write_struct_bytes_out_append _ _ h (by simp [fieldDefTriple])]
    simp [fieldDefsBytes]

/-- Little-endian u16 encode inverts the 2-byte decode on byte-bounded
input. -/
theorem natToBytesLE_two_echo (m0 m1 : Nat) (h0 : m0 < 256) (h1 : m1 < 256) :
    natToBytesLE 2 (bytesToNatLE [m0, m1]) = [m0, m1] := by
  have h : natToBytesLE 2 (bytesToNatLE [m0, m1]) =
      [(m0 + 256 * (m1 + 256 * 0)) % 256, (m0 + 256 * (m1 + 256 * 0)) / 256 % 256] := rfl
  rw [h]
  simp only [List.cons.injEq, and_true]
  constructor <;> omega

set_option maxRecDepth 10000 in
/-- A normal record-header byte with a clear reserved bit re-encodes to
itself. -/
theorem header_byte_echo : ∀ b, b < 256 → b &&& 0x80 = 0 → b &&& 0x10 = 0 →
    (((if b &&& 0x40 ≠ 0 then 0x40 else 0) |||
      (if b &&& 0x20 ≠ 0 then 0x20 else 0)) ||| (b &&& 0xF)) % 256 = b := by decide

/-- Echo of a normal record-header byte through parse-then-write: with
the reserved bit (0x10) clear, `_write_message_header` re-emits the
consumed byte. -/
theorem write_message_header_echo (st : RState) (header : MessageHeader) (rd1 : RState)
    (b : Nat) (h : parse_message_header st = .ok (header, rd1))
    (hb : st.file[st.pos]? = some b) (hlt : b < 256)
    (h80 : b &&& 0x80 = 0) (h10 : b &&& 0x10 = 0) (hout : st.hasOut = true) :
    header = ⟨b &&& 0x40 ≠ 0, b &&& 0x20 ≠ 0, b &&& 0xF, Option.none⟩ ∧
    rd1.file = st.file ∧ rd1.pos = st.pos + 1 ∧ rd1.hasOut = true ∧ rd1.out = st.out ∧
    (write_message_header header rd1).out = rd1.out ++ [b] := by
  unfold parse_message_header at h
  split at h
  · simp at h
  · rename_i d rd1' heq
    obtain ⟨hdata, hlen, hfile1, hpos1, hhas1, hout1⟩ := read_struct_bytes_ok 1 st d rd1' heq
    obtain ⟨b0, hd⟩ := List.length_eq_one.mp hlen
    subst hd
    have hb0 : b0 = b := by
      have h0 : ((st.file.drop st.pos).take 1)[0]? = some b0 := by rw [← hdata]; rfl
      rw [List.getElem?_take, if_pos (by omega), List.getElem?_drop] at h0
      rw [Nat.add_zero] at h0
      rw [hb] at h0
      exact (Option.some.injEq _ _ ▸ h0).symm
    subst hb0
    dsimp only at h
    simp only [List.getD_cons_zero] at h
    rw [if_neg (by rw [h80]; simp)] at h
    simp only [Except.ok.injEq, Prod.mk.injEq] at h
    obtain ⟨h1, h2⟩ := h
    subst h2
    refine ⟨h1.symm, hfile1, hpos1, by rw [hhas1, hout], hout1, ?_⟩
    rw [← h1]
    unfold write_message_header
    dsimp only
    rw [write_struct_bytes_out_append _ _ (by rw [hhas1, hout]) (by simp)]
    simp only [decide_eq_true_eq]
    rw [header_byte_echo _ hlt h80 h10]

/-- Echo of the definition-field triples: parsing `n` little-endian
triples whose base-type ids are all registered consumes exactly `3n`
bytes that the writer re-emits verbatim. -/
theorem parse_field_defs_echo (mt : Option MessageType) (g : Nat) :
    ∀ (n : Nat) (rd : RState) (accs : List (Nat × List (Nat × Int)))
      (fds : List FieldDefinition) (rd' : RState) (accs' : List (Nat × List (Nat × Int))),
      parse_field_defs mt .little g n rd accs = .ok (fds, rd', accs') →
      (∀ b ∈ rd.file, b < 256) →
      (∀ i, i < n → (BASE_TYPES (rd.file.getD (rd.pos + 3 * i + 2) 0)).isSome = true) →
      fds.length = n ∧ rd'.file = rd.file ∧ rd'.pos = rd.pos + 3 * n ∧
        rd'.hasOut = rd.hasOut ∧ rd'.out = rd.out ∧
        fieldDefsBytes fds = (rd.file.drop rd.pos).take (3 * n) := by
  intro n
  induction n with
  | zero =>
    intro rd accs fds rd' accs' h hb hknown
    rw [parse_field_defs] at h
    simp only [Except.ok.injEq, Prod.mk.injEq] at h
    obtain ⟨h1, h2, h3⟩ := h
    subst h1
    subst h2
    simp [fieldDefsBytes]
  | succ n ih =>
    intro rd accs fds rd' accs' h hb hknown
    rw [parse_field_defs] at h
    split at h
    · simp at h
    · rename_i d rd1 heq
      obtain ⟨hdata, hlen, hfile1, hpos1, hhas1, hout1⟩ := read_struct_bytes_ok 3 rd d rd1 heq
      obtain ⟨b0, b1, b2, hd⟩ := List.length_eq_three.mp hlen
      subst hd
      have hsub : List.Sublist [b0, b1, b2] rd.file := by
        rw [hdata]
        exact (List.take_sublist _ _).trans (List.drop_sublist _ _)
      have hb0 : b0 < 256 := hb b0 (hsub.mem (by simp))
      have hb1 : b1 < 256 := hb b1 (hsub.mem (by simp))
      have hb2 : b2 < 256 := hb b2 (hsub.mem (by simp))
      have hg2 : rd.file.getD (rd.pos + 2) 0 = b2 := by
        have h0 : ((rd.file.drop rd.pos).take 3)[2]? = some b2 := by rw [← hdata]; rfl
        rw [List.getElem?_take, if_pos (by omega), List.getElem?_drop] at h0
        rw [List.getD_eq_getElem?_getD, h0]
        rfl
      have hk0 := hknown 0 (by omega)
      rw [Nat.mul_zero, Nat.add_zero, hg2] at hk0
      obtain ⟨bt, hbt⟩ := Option.isSome_iff_exists.mp hk0
      dsimp only at h
      simp only [List.getD_cons_zero, List.getD_cons_succ, hbt, Option.getD_some] at h
      split at h
      · simp at h
      · split at h
        · simp at h
        · rename_i rest rd2 accs2 heq2
          simp only [Except.ok.injEq, Prod.mk.injEq] at h
          obtain ⟨h1, h2, h3⟩ := h
          subst h1
          subst h2
          have hknown1 : ∀ i, i < n →
              (BASE_TYPES (rd1.file.getD (rd1.pos + 3 * i + 2) 0)).isSome = true := by
            intro i hi
            rw [hfile1, hpos1]
            have hidx : rd.pos + 3 + 3 * i + 2 = rd.pos + 3 * (i + 1) + 2 := by omega
            rw [hidx]
            exact hknown (i + 1) (by omega)
          obtain ⟨hl, hf, hp, hh, ho, hby⟩ :=
            ih rd1 _ rest rd2 accs2 heq2 (by rw [hfile1]; exact hb) hknown1
          refine ⟨by simp [hl], by rw [hf, hfile1], by rw [hp, hpos1]; omega,
            by rw [hh, hhas1], by rw [ho, hout1], ?_⟩
          have htk : (rd.file.drop rd.pos).take (3 * (n + 1)) =
              (rd.file.drop rd.pos).take 3 ++ ((rd.file.drop rd.pos).drop 3).take (3 * n) := by
            rw [← List.take_add]
            congr 1
            omega
          rw [htk, ← hdata]
          have hslice : ((rd.file.drop rd.pos).drop 3).take (3 * n) =
              (rd1.file.drop rd1.pos).take (3 * n) := by
            rw [hfile1, hpos1, List.drop_drop]
          rw [← hslice] at hby
          rw [← hby]
          simp only [fieldDefsBytes, List.map_cons, List.flatten_cons]
          congr 1
          simp only [fieldDefTriple]
          rw [BASE_TYPES_identifier b2 bt hbt]
          rw [Nat.mod_eq_of_lt hb0, Nat.mod_eq_of_lt hb1, Nat.mod_eq_of_lt hb2]

/-- A byte of a `_read` slice is the file byte at the shifted index. -/
theorem getD_of_slice (f : List Nat) (p n k b : Nat) (d : List Nat)
    (hd : d = (f.drop p).take n) (hk : d[k]? = some b) (hkn : k < n) :
    f.getD (p + k) 0 = b := by
  rw [hd, List.getElem?_take, if_pos hkn, List.getElem?_drop] at hk
  rw [List.getD_eq_getElem?_getD, hk]
  rfl

/-- Echo of a little-endian definition record body through
parse-then-write: with zero reserved and architecture bytes, no
developer data, byte-bounded input and registered base-type ids, the
writer re-emits exactly the consumed slice. -/
theorem parse_definition_message_echo (env : FitEnv) (header : MessageHeader) (st : PState)
    (msg : DefinitionMessage) (st' : PState)
    (h : parse_definition_message env header st = .ok (msg, st'))
    (hdev : header.is_developer_data = false)
    (hout : st.rd.hasOut = true)
    (hb : ∀ b ∈ st.rd.file, b < 256)
    (hres : st.rd.file.getD st.rd.pos 0 = 0)
    (harch : st.rd.file.getD (st.rd.pos + 1) 0 = 0)
    (hknown : ∀ i, i < st.rd.file.getD (st.rd.pos + 4) 0 →
      (BASE_TYPES (st.rd.file.getD (st.rd.pos + 5 + 3 * i + 2) 0)).isSome = true) :
    st'.rd.file = st.rd.file ∧
    st'.rd.pos = st.rd.pos + 5 + 3 * (st.rd.file.getD (st.rd.pos + 4) 0) ∧
    st'.rd.hasOut = true ∧ st'.rd.out = st.rd.out ∧
    (write_definition_message msg st'.rd).out =
      st.rd.out ++ (st.rd.file.drop st.rd.pos).take
        (5 + 3 * (st.rd.file.getD (st.rd.pos + 4) 0)) := by
  unfold parse_definition_message at h
  split at h
  · simp at h
  · rename_i d1 rd1 heq1
    obtain ⟨hdata1, hlen1, hfile1, hpos1, hhas1, hout1⟩ :=
      read_struct_bytes_ok 2 st.rd d1 rd1 heq1
    obtain ⟨r0, r1, hd1⟩ := List.length_eq_two.mp hlen1
    subst hd1
    have hr0 : r0 = 0 := by
      have h00 := getD_of_slice st.rd.file st.rd.pos 2 0 r0 _ hdata1 rfl (by omega)
      rw [Nat.add_zero] at h00
      exact h00.symm.trans hres
    have hr1 : r1 = 0 := by
      have h01 := getD_of_slice st.rd.file st.rd.pos 2 1 r1 _ hdata1 rfl (by omega)
      exact h01.symm.trans harch
    subst hr0
    subst hr1
    dsimp only at h
    rw [if_neg (show ¬(([0, 0].getD 1 0) ≠ 0) from fun hc => hc rfl)] at h
    split at h
    · simp at h
    · rename_i d2 rd2 heq2
      obtain ⟨hdata2, hlen2, hfile2, hpos2, hhas2, hout2⟩ :=
        read_struct_bytes_ok 3 rd1 d2 rd2 heq2
      rw [hfile1, hpos1] at hdata2
      rw [hfile1] at hfile2
      rw [hpos1] at hpos2
      obtain ⟨m0, m1, nfb, hd2⟩ := List.length_eq_three.mp hlen2
      subst hd2
      have hnfb : st.rd.file.getD (st.rd.pos + 4) 0 = nfb := by
        have h22 := getD_of_slice st.rd.file (st.rd.pos + 2) 3 2 nfb _ hdata2 rfl (by omega)
        rw [show st.rd.pos + 2 + 2 = st.rd.pos + 4 by omega] at h22
        exact h22
      have hsub2 : List.Sublist [m0, m1, nfb] st.rd.file := by
        rw [hdata2]
        exact (List.take_sublist _ _).trans (List.drop_sublist _ _)
      have hm0b : m0 < 256 := hb m0 (hsub2.mem (by simp))
      have hm1b : m1 < 256 := hb m1 (hsub2.mem (by simp))
      have hnfbb : nfb < 256 := hb nfb (hsub2.mem (by simp))
      try dsimp only at h
      split at h
      · simp at h
      · rename_i field_defs rd3 accs3 heq3
        have hknown3 : ∀ i, i < [m0, m1, nfb].getD 2 0 →
            (BASE_TYPES (rd2.file.getD (rd2.pos + 3 * i + 2) 0)).isSome = true := by
          intro i hi
          simp only [List.getD_cons_succ, List.getD_cons_zero] at hi
          rw [hfile2, hpos2]
          rw [show st.rd.pos + 2 + 3 + 3 * i + 2 = st.rd.pos + 5 + 3 * i + 2 by omega]
          apply hknown
          rw [hnfb]
          exact hi
        obtain ⟨hl3, hf3, hp3, hh3, ho3, hby3⟩ :=
          parse_field_defs_echo _ _ _ rd2 st.accumulators field_defs rd3 accs3 heq3
            (by rw [hfile2]; exact hb) hknown3
        rw [hdev] at h
        rw [if_neg (show ¬(false = true) by simp)] at h
        dsimp only at h
        simp only [Except.ok.injEq, Prod.mk.injEq] at h
        obtain ⟨hmsg, hst⟩ := h
        subst hmsg
        subst hst
        have hrd3file : rd3.file = st.rd.file := by rw [hf3, hfile2]
        have hrd3pos : rd3.pos = st.rd.pos + 5 + 3 * nfb := by
          rw [hp3, hpos2]
          simp only [List.getD_cons_succ, List.getD_cons_zero]
          try omega
        have hrd3has : rd3.hasOut = true := by rw [hh3, hhas2, hhas1, hout]
        have hrd3out : rd3.out = st.rd.out := by rw [ho3, hout2, hout1]
        refine ⟨hrd3file, by rw [hrd3pos, hnfb], hrd3has, hrd3out, ?_⟩
        unfold write_definition_message
        dsimp only
        rw [hdev]
        rw [if_neg (show ¬(false = true) by simp)]
        have hpack : natToBytesLE 2 0 ++
            natToBytesLE 2 (decodeUInt .little ([m0, m1, nfb].take 2)) ++
            [field_defs.length % 256] = [0, 0] ++ [m0, m1, nfb] := by
          have ht2 : [m0, m1, nfb].take 2 = [m0, m1] := rfl
          have hz2 : natToBytesLE 2 0 = [0, 0] := rfl
          rw [ht2, hz2]
          dsimp only [decodeUInt]
          rw [natToBytesLE_two_echo m0 m1 hm0b hm1b]
          rw [hl3]
          simp only [List.getD_cons_succ, List.getD_cons_zero]
          rw [Nat.mod_eq_of_lt hnfbb]
          simp
        obtain ⟨hfold, _⟩ := foldl_write_fieldDefTriples field_defs
          (write_struct_bytes (natToBytesLE 2 0 ++
            natToBytesLE 2 (decodeUInt .little ([m0, m1, nfb].take 2)) ++
            [field_defs.length % 256]) rd3) (by simp [hrd3has])
        rw [hfold]
        rw [write_struct_bytes_out_append _ _ hrd3has (by rw [hpack]; simp)]
        rw [hpack, hrd3out]
        rw [hby3, hfile2, hpos2]
        simp only [List.getD_cons_succ, List.getD_cons_zero]
        rw [hnfb]
        have hRHS : (st.rd.file.drop st.rd.pos).take (5 + 3 * nfb) =
            (st.rd.file.drop st.rd.pos).take 5 ++
              (st.rd.file.drop (st.rd.pos + 5)).take (3 * nfb) := by
          rw [List.take_add, List.drop_drop]
        have h5 : (st.rd.file.drop st.rd.pos).take 5 = [0, 0] ++ [m0, m1, nfb] := by
          rw [show (5 : Nat) = 2 + 3 from rfl, List.take_add, ← hdata1, List.drop_drop,
            ← hdata2]
        rw [hRHS, h5]
        rw [show st.rd.pos + 2 + 3 = st.rd.pos + 5 by omega]
        simp

@[simp] theorem write_message_header_file (header : MessageHeader) (st : RState) :
    (write_message_header header st).file = st.file := by
  unfold write_message_header
  simp

@[simp] theorem write_message_header_pos (header : MessageHeader) (st : RState) :
    (write_message_header header st).pos = st.pos := by
  unfold write_message_header
  simp

@[simp] theorem write_message_header_hasOut (header : MessageHeader) (st : RState) :
    (write_message_header header st).hasOut = st.hasOut := by
  unfold write_message_header
  simp

/-- Echo of a whole little-endian definition record through one
`_parse_message` step: header byte, reserved/arch word, message number,
field count and field triples are all re-emitted verbatim. -/
theorem parse_message_definition_echo (env : FitEnv) (fuel : Nat) (st : PState)
    (msg : Message) (st' : PState) (b : Nat)
    (h : parse_message env (fuel + 1) st = .ok (some msg, st'))
    (hbl : 0 < st.rd.bytes_left)
    (hout : st.rd.hasOut = true)
    (hb : ∀ x ∈ st.rd.file, x < 256)
    (hbyte : st.rd.file[st.rd.pos]? = some b)
    (h80 : b &&& 0x80 = 0) (h40 : b &&& 0x40 ≠ 0) (h20 : b &&& 0x20 = 0)
    (h10 : b &&& 0x10 = 0)
    (hres : st.rd.file.getD (st.rd.pos + 1) 0 = 0)
    (harch : st.rd.file.getD (st.rd.pos + 2) 0 = 0)
    (hknown : ∀ i, i < st.rd.file.getD (st.rd.pos + 5) 0 →
      (BASE_TYPES (st.rd.file.getD (st.rd.pos + 6 + 3 * i + 2) 0)).isSome = true) :
    st'.rd.out = st.rd.out ++ (st.rd.file.drop st.rd.pos).take
      (6 + 3 * (st.rd.file.getD (st.rd.pos + 5) 0)) := by
  have hlt : b < 256 := hb b (List.getElem?_mem hbyte)
  rw [parse_message] at h
  rw [if_neg (by omega : ¬ st.rd.bytes_left ≤ 0)] at h
  split at h
  · simp at h
  · rename_i header rd1 heqh
    obtain ⟨hhdr, hfile1, hpos1, hhas1, hout1, hwout⟩ :=
      write_message_header_echo st.rd header rd1 b heqh hbyte hlt h80 h10 hout
    dsimp only at h
    rw [hhdr] at h hwout
    rw [if_pos (show decide (b &&& 0x40 ≠ 0) = true by
      simp only [decide_eq_true_eq]; exact h40)] at h
    split at h
    · simp at h
    · rename_i dmsg st2 heqd
      simp only [Except.ok.injEq, Prod.mk.injEq] at h
      obtain ⟨hm, hst⟩ := h
      subst hst
      have hdev2 : (⟨b &&& 0x40 ≠ 0, b &&& 0x20 ≠ 0, b &&& 0xF,
          Option.none⟩ : MessageHeader).is_developer_data = false := by
        dsimp only
        rw [h20]
        rfl
      have hwpos : (write_message_header
          ⟨b &&& 0x40 ≠ 0, b &&& 0x20 ≠ 0, b &&& 0xF, Option.none⟩ rd1).pos
          = st.rd.pos + 1 := by
        rw [write_message_header_pos, hpos1]
      have hwfile : (write_message_header
          ⟨b &&& 0x40 ≠ 0, b &&& 0x20 ≠ 0, b &&& 0xF, Option.none⟩ rd1).file
          = st.rd.file := by
        rw [write_message_header_file, hfile1]
      obtain ⟨hef, hep, heh, heo, hew⟩ :=
        parse_definition_message_echo env _ _ dmsg st2 heqd hdev2
          (by rw [write_message_header_hasOut]; exact hhas1)
          (by dsimp only; rw [hwfile]; exact hb)
          (by dsimp only; rw [hwfile, hwpos]; exact hres)
          (by dsimp only; rw [hwfile, hwpos]
              rw [show st.rd.pos + 1 + 1 = st.rd.pos + 2 by omega]
              exact harch)
          (by dsimp only
              rw [hwfile, hwpos]
              rw [show st.rd.pos + 1 + 4 = st.rd.pos + 5 by omega]
              intro i hi
              rw [show st.rd.pos + 1 + 5 + 3 * i + 2 = st.rd.pos + 6 + 3 * i + 2 by omega]
              exact hknown i hi)
      dsimp only
      rw [hew]
      dsimp only
      rw [hwout, hout1, hwfile, hwpos]
      rw [show st.rd.pos + 1 + 4 = st.rd.pos + 5 by omega]
      have hdc : st.rd.file.drop st.rd.pos = b :: st.rd.file.drop (st.rd.pos + 1) := by
        obtain ⟨hplen, hbv⟩ := List.getElem?_eq_some.mp hbyte
        rw [List.drop_eq_getElem_cons hplen, hbv]
      rw [hdc]
      rw [show 6 + 3 * (st.rd.file.getD (st.rd.pos + 5) 0) =
        5 + 3 * (st.rd.file.getD (st.rd.pos + 5) 0) + 1 by omega]
      rw [List.take_succ_cons]
      simp

/-- What `_write_definition_message` always emits for a non-developer
definition message: a zero 16-bit word over the reserved and
architecture bytes and a little-endian message number, regardless of the
message's declared endianness. -/
theorem write_definition_message_shape (msg : DefinitionMessage) (rd : RState)
    (hout : rd.hasOut = true) (hdev : msg.header.is_developer_data = false) :
    (write_definition_message msg rd).out =
      rd.out ++ [0, 0] ++ natToBytesLE 2 msg.mesg_num ++
        [msg.field_defs.length % 256] ++ fieldDefsBytes msg.field_defs := by
  unfold write_definition_message
  dsimp only
  rw [hdev]
  rw [if_neg (show ¬(false = true) by simp)]
  obtain ⟨hfold, _⟩ := foldl_write_fieldDefTriples msg.field_defs
    (write_struct_bytes (natToBytesLE 2 0 ++ natToBytesLE 2 msg.mesg_num ++
      [msg.field_defs.length % 256]) rd) (by simp [hout])
  rw [hfold]
  rw [write_struct_bytes_out_append _ _ hout
    (by rw [show natToBytesLE 2 0 = [0, 0] from rfl]; simp)]
  rw [show natToBytesLE 2 0 = [0, 0] from rfl]
  simp

/-- A complete FIT file whose single record is a definition message
declaring big-endian architecture (arch byte 1 at offset 14), with a
correct trailing CRC. -/
def wBeFile : List Nat :=
  [12, 0x10, 0x64, 0x00, 9, 0, 0, 0, 0x2E, 0x46, 0x49, 0x54] ++
  [0x40, 0x00, 0x01, 0x00, 0x00, 0x01, 0x03, 0x01, 0x02] ++ [81, 108]

set_option maxRecDepth 100000 in
/-- C3 counterexample: rewriting is not byte-identical up to the
reserved byte for a big-endian definition record.  `wBeFile` is
well-formed (it parses to completion with CRC checking on and a sink
attached) and the sink output matches the input at the reserved byte
(offset 13), yet differs at the architecture byte (offset 14): input 1,
output 0, because `_write_definition_message` re-encodes the
reserved/architecture word as a little-endian zero. -/
theorem definition_rewrite_not_identical :
    ∃ st, run_fitfile envDefault wBeFile true = .ok st ∧ st.complete = true ∧
      st.rd.out.length = wBeFile.length ∧
      st.rd.out[13]? = wBeFile[13]? ∧
      wBeFile[14]? = some 1 ∧ st.rd.out[14]? = some 0 := by
  have hkey : (match run_fitfile envDefault wBeFile true with
      | .ok s => s.complete && (s.rd.out.length == wBeFile.length) &&
          (s.rd.out[13]? == wBeFile[13]?) && (s.rd.out[14]? == some 0)
      | .error _ => false) = true := by decide
  match hev : run_fitfile envDefault wBeFile true with
  | .error e =>
    rw [hev] at hkey
    simp at hkey
  | .ok s =>
    rw [hev] at hkey
    simp only [Bool.and_eq_true, beq_iff_eq] at hkey
    obtain ⟨⟨⟨hc, hlen⟩, h13⟩, h14⟩ := hkey
    exact ⟨s, rfl, hc, hlen, h13, by decide, h14⟩

/-- C3 (amended): the definition-record rewrite is little-endian by
construction — `_write_definition_message` always emits a zero
reserved/architecture word and a little-endian message number — and the
round-trip is byte-identical exactly on little-endian definition
records: one `_parse_message` step over a definition record with a
normal header (reserved header bit clear), zero reserved and
architecture bytes, no developer data and registered base-type ids
appends to the sink precisely the consumed input slice. -/
theorem definition_rewrite_echo_spec :
    (∀ (msg : DefinitionMessage) (rd : RState), rd.hasOut = true →
        msg.header.is_developer_data = false →
        (write_definition_message msg rd).out =
          rd.out ++ [0, 0] ++ natToBytesLE 2 msg.mesg_num ++
            [msg.field_defs.length % 256] ++ fieldDefsBytes msg.field_defs) ∧
    (∀ (env : FitEnv) (fuel : Nat) (st : PState) (msg : Message) (st' : PState) (b : Nat),
        parse_message env (fuel + 1) st = .ok (some msg, st') →
        0 < st.rd.bytes_left → st.rd.hasOut = true →
        (∀ x ∈ st.rd.file, x < 256) →
        st.rd.file[st.rd.pos]? = some b →
        b &&& 0x80 = 0 → b &&& 0x40 ≠ 0 → b &&& 0x20 = 0 → b &&& 0x10 = 0 →
        st.rd.file.getD (st.rd.pos + 1) 0 = 0 →
        st.rd.file.getD (st.rd.pos + 2) 0 = 0 →
        (∀ i, i < st.rd.file.getD (st.rd.pos + 5) 0 →
          (BASE_TYPES (st.rd.file.getD (st.rd.pos + 6 + 3 * i + 2) 0)).isSome = true) →
        st'.rd.out = st.rd.out ++ (st.rd.file.drop st.rd.pos).take
          (6 + 3 * (st.rd.file.getD (st.rd.pos + 5) 0))) :=
  ⟨write_definition_message_shape, parse_message_definition_echo⟩

/-- A big-endian definition message for the C3 amended witness's writer
conjunct. -/
def wBeMsg : DefinitionMessage :=
  ⟨⟨true, false, 0, Option.none⟩, .big, Option.none, 0x0100, [], []⟩

/-- Parser state sitting at a little-endian definition record, for the
C3 amended witness. -/
def wLeSt : PState :=
  { rd := ⟨[0x40, 0, 0, 0, 0, 1, 3, 1, 2], 0, 0, 9, true, [], 0⟩
    accumulators := []
    complete := false
    compressed_ts_accumulator := .scalar (.num 0)
    local_mesgs := []
    messages := []
    dev_types := [] }

set_option maxRecDepth 100000 in
/-- Witness for `definition_rewrite_echo_spec`: the writer emits the
zeroed little-endian fixed header for a big-endian message, and a
concrete little-endian definition record echoes through a parse step. -/
theorem definition_rewrite_echo_spec_witness :
    (write_definition_message wBeMsg wErrRd).out =
      wErrRd.out ++ [0, 0] ++ natToBytesLE 2 wBeMsg.mesg_num ++
        [wBeMsg.field_defs.length % 256] ++ fieldDefsBytes wBeMsg.field_defs ∧
    ∃ msg st', parse_message envDefault 1 wLeSt = .ok (some msg, st') ∧
      st'.rd.out = wLeSt.rd.out ++ (wLeSt.rd.file.drop wLeSt.rd.pos).take
        (6 + 3 * (wLeSt.rd.file.getD (wLeSt.rd.pos + 5) 0)) := by
  obtain ⟨h1, h2⟩ := definition_rewrite_echo_spec
  refine ⟨h1 wBeMsg wErrRd rfl rfl, ?_⟩
  have hkey : (match parse_message envDefault 1 wLeSt with
      | .ok (some _, _) => true
      | _ => false) = true := by decide
  match hev : parse_message envDefault 1 wLeSt with
  | .error e =>
    rw [hev] at hkey
    simp at hkey
  | .ok (Option.none, st') =>
    rw [hev] at hkey
    simp at hkey
  | .ok (some msg, st') =>
    refine ⟨msg, st', rfl, ?_⟩
    exact h2 envDefault 0 wLeSt msg st' 0x40 hev (by decide) rfl (by decide) rfl
      (by decide) (by decide) (by decide) (by decide) (by decide) (by decide)
      (by decide)

/-- Witness for `fit_parse_error_spec`: each taxonomy case fires at a
concrete input, and the resulting error kills the parse. -/
theorem fit_parse_error_spec_witness :
    read_struct_bytes 0 wErrRd = .error .invalidStructError ∧
    write_one_raw .little wErrEntry (.scalar (.num 0)) wErrRd =
      .error .invalidStructError ∧
    parse_field_defs Option.none .little 0 1 wErrRd [] =
      .error (.fieldSizeError 1 2) ∧
    parse_data_message envDefault ⟨false, false, 3, Option.none⟩ wErrSt =
      .error (.invalidLocalMesgError 3) ∧
    ((Err.invalidLocalMesgError 3) = .invalidStructError ∨
      (∃ s b, (Err.invalidLocalMesgError 3) = .fieldSizeError s b ∧ s % b ≠ 0) ∨
      (∃ n, (Err.invalidLocalMesgError 3) = .invalidLocalMesgError n)) ∧
    parse_all envDefault 1 wErrSt = .error (.invalidLocalMesgError 3) := by
  obtain ⟨h1, h2, h3, h4, h5, h6⟩ := fit_parse_error_spec
  refine ⟨(h1 0 wErrRd).mpr rfl,
    (h2 .little wErrEntry (.scalar (.num 0)) wErrRd).mpr
      ⟨(BASE_TYPES 0x84).getD BASE_TYPE_BYTE, rfl, rfl, by decide⟩,
    h3 Option.none .little 0 0 wErrRd [] 0 1 0x84 (read_bytes 3 wErrRd).2 rfl
      (by decide),
    h4 envDefault ⟨false, false, 3, Option.none⟩ wErrSt rfl,
    h5 envDefault 1 wErrSt (.invalidLocalMesgError 3) rfl rfl,
    h6 envDefault 0 wErrSt (.invalidLocalMesgError 3) rfl⟩

end Fitparse
